import Mathlib

/-!
A shallow embedding of the `easyfig` configuration-persistence component
(`src/__init__.py`, class `Easyfig`), together with proofs about it.

Modelling conventions:
* Python runtime values are `PyValue`; Python exceptions that can escape the
  embedded code are `PyError`; fallible Python code returns `Except PyError`.
* ConfigParser state is `ParserState`: an insertion-ordered association list
  from section names to insertion-ordered association lists of options, which
  is how ConfigParser stores data (ordered dictionaries).  The option-name
  transformation (`str.lower`) and `%`-interpolation of ConfigParser are not
  modelled; names and values are taken literally.  The special `DEFAULT`
  section is modelled only where the code observes it (`items`).
* The file system is `Disk : String → Option ParserState`.  A file's content
  is identified with its parsed form: `ConfigParser.write` followed by
  `ConfigParser.read` is the identity for the single-line values easyfig
  produces.
-/

/-- Python runtime values relevant to easyfig: schema defaults, values passed
to `set`, and values produced by casting.  `obj` stands for an opaque Python
object that `json.dumps` cannot serialize. -/
inductive PyValue where
  | int (n : Int)
  | bool (b : Bool)
  | str (s : String)
  | list (xs : List PyValue)
  | tuple (xs : List PyValue)
  | dict (kvs : List (String × PyValue))
  | obj
deriving Repr

/-- Python exceptions that can escape the embedded code. -/
inductive PyError where
  | typeError
  | valueError
  | indexError
  | noSectionError
deriving Repr, DecidableEq

/-- The decimal digit characters of a natural number, most significant first;
structural recursion on a fuel bound (`n < fuel` always suffices). -/
def renderNatAux : Nat → Nat → List Char
  | 0, _ => []
  | fuel + 1, n =>
    if n < 10 then [Char.ofNat (48 + n)]
    else renderNatAux fuel (n / 10) ++ [Char.ofNat (48 + n % 10)]

/-- The decimal digit characters of a natural number, most significant first
(the rendering used by Python `str(int)` for nonnegative integers). -/
def renderNat (n : Nat) : List Char := renderNatAux (n + 1) n

/-- Model of Python `str(int)`: decimal digits, with a leading minus sign for
negative numbers. -/
def renderInt (v : Int) : String :=
  if v < 0 then String.mk (Char.ofNat 45 :: renderNat v.natAbs)
  else String.mk (renderNat v.natAbs)

/-- Is `c` a decimal digit character. -/
def isDigitCh (c : Char) : Bool := 48 ≤ c.toNat && c.toNat ≤ 57

/-- Read a run of decimal digits, accumulating into `acc`; fails on any
non-digit character. -/
def parseDigits : List Char → Nat → Option Nat
  | [], acc => some acc
  | c :: cs, acc =>
    if isDigitCh c then parseDigits cs (acc * 10 + (c.toNat - 48)) else none

/-- Strip spaces from both ends (model of Python `str.strip` for the
whitespace easyfig values can contain). -/
def stripSpaces (cs : List Char) : List Char :=
  ((cs.dropWhile (fun c => c = ' ')).reverse.dropWhile (fun c => c = ' ')).reverse

/-- Model of Python `int(s)`: strip surrounding whitespace, then an optional
sign followed by one or more decimal digits; anything else raises
`ValueError`, modelled as `none`. -/
def pyIntOfString (s : String) : Option Int :=
  match stripSpaces s.toList with
  | [] => none
  | c :: cs =>
    if c = Char.ofNat 45 then
      match cs with
      | [] => none
      | _ => (parseDigits cs 0).map (fun n => -(n : Int))
    else if c = Char.ofNat 43 then
      match cs with
      | [] => none
      | _ => (parseDigits cs 0).map (fun n => (n : Int))
    else (parseDigits (c :: cs) 0).map (fun n => (n : Int))

mutual
/-- Model of Python `json.dumps` with default separators: integers, booleans,
strings (escaping not modelled), lists and tuples as arrays, dicts as objects.
An unserializable object raises `TypeError`, modelled as `.error .typeError`. -/
def jsonDumps : PyValue → Except PyError String
  | .int n => .ok (renderInt n)
  | .bool b => .ok (if b then "true" else "false")
  | .str s => .ok ("\"" ++ s ++ "\"")
  | .obj => .error .typeError
  | .list xs => do .ok ("[" ++ String.intercalate ", " (← jsonDumpsList xs) ++ "]")
  | .tuple xs => do .ok ("[" ++ String.intercalate ", " (← jsonDumpsList xs) ++ "]")
  | .dict kvs => do
      .ok ("\x7b" ++ String.intercalate ", " (← jsonDumpsKvs kvs) ++ "\x7d")

/-- Serialize each list element. -/
def jsonDumpsList : List PyValue → Except PyError (List String)
  | [] => .ok []
  | v :: vs => do .ok ((← jsonDumps v) :: (← jsonDumpsList vs))

/-- Serialize each dict entry as `"key": value`. -/
def jsonDumpsKvs : List (String × PyValue) → Except PyError (List String)
  | [] => .ok []
  | kv :: kvs => do
      .ok (("\"" ++ kv.1 ++ "\": " ++ (← jsonDumps kv.2)) :: (← jsonDumpsKvs kvs))
end

/-- Model of Python `str(value)` for the values easyfig passes to it:
integers in decimal, booleans as `True`/`False`, strings unchanged, opaque
objects as a placeholder repr.  Composite values are rendered via their JSON
form; that arm is unreachable from the embedded code, since `_set` serializes
composites through `json.dumps` and propagates its failure. -/
def pyStr (v : PyValue) : String :=
  match v with
  | .int n => renderInt n
  | .bool b => if b then "True" else "False"
  | .str s => s
  | .obj => "<object>"
  | v =>
    match jsonDumps v with
    | .ok s => s
    | .error _ => "<object>"

/-- Skip JSON whitespace (spaces suffice for the strings easyfig produces). -/
def jsonWs (cs : List Char) : List Char := cs.dropWhile (fun c => c = ' ')

mutual
/-- One JSON value: integer, double-quoted string (no escapes), boolean, or
array.  Other JSON forms are modelled as parse failures; this covers every
string the development evaluates `json.loads` on. -/
def jsonParseVal : Nat → List Char → Option (PyValue × List Char)
  | 0, _ => none
  | fuel + 1, cs =>
    match jsonWs cs with
    | [] => none
    | c :: rest =>
      if c = '[' then
        match jsonWs rest with
        | ']' :: rest2 => some (.list [], rest2)
        | _ => jsonParseArr fuel rest
      else if c = '"' then
        match rest.dropWhile (fun d => !(d = '"')) with
        | '"' :: rest2 => some (.str (String.mk (rest.takeWhile (fun d => !(d = '"')))), rest2)
        | _ => none
      else if c = 't' then
        match rest with
        | 'r' :: 'u' :: 'e' :: r => some (.bool true, r)
        | _ => none
      else if c = 'f' then
        match rest with
        | 'a' :: 'l' :: 's' :: 'e' :: r => some (.bool false, r)
        | _ => none
      else if c = Char.ofNat 45 then
        match rest.takeWhile isDigitCh with
        | [] => none
        | ds => (parseDigits ds 0).map
            (fun n => (.int (-(n : Int)), rest.dropWhile isDigitCh))
      else if isDigitCh c then
        (parseDigits ((c :: rest).takeWhile isDigitCh) 0).map
          (fun n => (.int (n : Int), (c :: rest).dropWhile isDigitCh))
      else none

/-- The elements of a nonempty JSON array, after the opening bracket. -/
def jsonParseArr : Nat → List Char → Option (PyValue × List Char)
  | 0, _ => none
  | fuel + 1, cs =>
    match jsonParseVal fuel cs with
    | none => none
    | some (v, rest) =>
      match jsonWs rest with
      | ',' :: rest2 =>
        match jsonParseArr fuel rest2 with
        | some (.list vs, r) => some (.list (v :: vs), r)
        | _ => none
      | ']' :: rest2 => some (.list [v], rest2)
      | _ => none
end

/-- Model of Python `json.loads` on a string argument: parse one value and
require only whitespace to remain.  Failure (Python `JSONDecodeError`) is
`none`. -/
def jsonLoads (s : String) : Option PyValue :=
  match jsonParseVal (2 * s.length + 2) s.toList with
  | some (v, rest) => if jsonWs rest = [] then some v else none
  | none => none

/-- Model of `value.replace("'", chr(34))` at src/__init__.py:119: the pattern
is a single character, so the replacement is a character map swapping every
apostrophe (code 39) for a double quote (code 34). -/
def pyReplaceQuotes (s : String) : String :=
  String.mk (s.toList.map (fun c => if c.toNat = 39 then Char.ofNat 34 else c))

/-- Model of Python `s.startswith(pre)`: prefix test on the character list. -/
def pyStartswith (s pre : String) : Bool := pre.toList.isPrefixOf s.toList

/-- Model of `option.replace(chr(95), "", 1)` on a name that starts with an
underscore: drop the first character. -/
def pyDrop1 (s : String) : String := String.mk (s.toList.drop 1)

/-- Lower-case one ASCII character (model of what `str.lower` does to the
section names easyfig handles). -/
def pyLowerChar (c : Char) : Char :=
  if 65 ≤ c.toNat && c.toNat ≤ 90 then Char.ofNat (c.toNat + 32) else c

/-- Model of Python `str.lower` for ASCII section names. -/
def pyLower (s : String) : String := String.mk (s.toList.map pyLowerChar)

/-- `type(default)(value)` for scalar defaults (src/__init__.py:124):
`int` parses the string, `bool` of a string is True exactly for nonempty
strings, `str` is the identity.  Calling the class of an opaque object is
modelled as failing; failures are swallowed by the caller. -/
def scalarCast (default : PyValue) (value : String) : Option PyValue :=
  match default with
  | .int _ => (pyIntOfString value).map PyValue.int
  | .bool _ => some (.bool (if value = "" then false else true))
  | .str _ => some (.str value)
  | _ => none

/-- `type(default)(value)` for composite defaults, the JSON-failure fallback
at src/__init__.py:121: `list(s)` and `tuple(s)` build the sequence of
one-character strings; `dict(s)` raises `ValueError` unless `s` is empty. -/
def compositeOfString (default : PyValue) (value : String) : Except PyError PyValue :=
  match default with
  | .list _ => .ok (.list (value.toList.map (fun c => .str (String.mk [c]))))
  | .tuple _ => .ok (.tuple (value.toList.map (fun c => .str (String.mk [c]))))
  | .dict _ => if value = "" then .ok (.dict []) else .error .valueError
  | _ => .error .typeError

/-! ### Association lists (the ordered dictionaries inside ConfigParser) -/

/-- First value bound to `k`, if any. -/
def lookupA {α : Type _} : List (String × α) → String → Option α
  | [], _ => none
  | kv :: l, k => if kv.1 = k then some kv.2 else lookupA l k

/-- Update the first binding of `k` in place, or append a new one: the
behaviour of assignment into a Python (ordered) dict. -/
def setA {α : Type _} : List (String × α) → String → α → List (String × α)
  | [], k, v => [(k, v)]
  | kv :: l, k, v => if kv.1 = k then (k, v) :: l else kv :: setA l k v

/-- The keys, in order. -/
def keysA {α : Type _} (l : List (String × α)) : List String := l.map Prod.fst

/-- Entries of one section: option name to raw string value. -/
abbrev Entries := List (String × String)

/-- The data of one ConfigParser object. -/
structure ParserState where
  sections : List (String × Entries)
deriving Repr, DecidableEq

/-- `ConfigParser.has_section`. -/
def ParserState.hasSection (p : ParserState) (s : String) : Bool :=
  (lookupA p.sections s).isSome

/-- `ConfigParser.get(section, key)`, with section-missing and option-missing
errors (both `ParserError` subclasses) collapsed into `none`; every embedded
call site catches them. -/
def ParserState.get (p : ParserState) (sec opt : String) : Option String :=
  match lookupA p.sections sec with
  | some es => lookupA es opt
  | none => none

/-- `ConfigParser.add_section`, as used in the source: always guarded by
`has_section`, hence modelled as add-if-missing. -/
def ParserState.addSection (p : ParserState) (s : String) : ParserState :=
  if p.hasSection s then p else ⟨p.sections ++ [(s, [])]⟩

/-- `ConfigParser.set(section, option, value)`.  On a missing section
ConfigParser raises `NoSectionError`; every embedded call site has ensured the
section exists, so that case is modelled as a no-op. -/
def ParserState.set (p : ParserState) (sec opt v : String) : ParserState :=
  match lookupA p.sections sec with
  | some es => ⟨setA p.sections sec (setA es opt v)⟩
  | none => p

/-- `ConfigParser.remove_option`. -/
def ParserState.removeOption (p : ParserState) (sec opt : String) : ParserState :=
  match lookupA p.sections sec with
  | some es => ⟨setA p.sections sec (es.filter (fun kv => !(kv.1 = opt)))⟩
  | none => p

/-- A parser with no sections. -/
def ParserState.empty : ParserState := ⟨[]⟩

/-- `ConfigParser.read` of an already-parsed file into an existing parser:
section-wise, option-wise dictionary update, so options read later win. -/
def readInto (p : ParserState) (q : ParserState) : ParserState :=
  q.sections.foldl
    (fun p sq => sq.2.foldl (fun p kv => p.set sq.1 kv.1 kv.2) (p.addSection sq.1)) p

/-- The file system: file name to parsed content, `none` when absent. -/
abbrev Disk := String → Option ParserState

/-- Overwrite one file. -/
def diskSet (d : Disk) (f : String) (p : ParserState) : Disk :=
  fun g => if g = f then some p else d g

/-- The empty file system. -/
def emptyDisk : Disk := fun _ => none

/-- `ConfigParser.read(path)`: a missing file is silently ignored. -/
def readFileInto (p : ParserState) (d : Disk) (f : String) : ParserState :=
  match d f with
  | some q => readInto p q
  | none => p

/-- Reading all files in order into one fresh parser (src/__init__.py:90-93). -/
def readAll (files : List String) (d : Disk) : ParserState :=
  files.foldl (fun p f => readFileInto p d f) ParserState.empty

/-- Well-formed entries: option names occur at most once, as in a dict. -/
def wfE (es : Entries) : Prop := (keysA es).Nodup

/-- Well-formed parser data: section names occur at most once and every
section is well-formed.  All states ConfigParser itself builds are like
this. -/
def wfP (p : ParserState) : Prop :=
  (keysA p.sections).Nodup ∧ ∀ se ∈ p.sections, wfE se.2

instance (es : Entries) : Decidable (wfE es) := by unfold wfE; infer_instance
instance (p : ParserState) : Decidable (wfP p) := by unfold wfP; infer_instance

/-! ### The Easyfig object -/

/-- The bound attributes of an Easyfig instance (`setattr` targets). -/
abbrev Attrs := List (String × PyValue)

/-- `Easyfig.defaults`: section name to options with default values, in
insertion order. -/
abbrev Schema := List (String × List (String × PyValue))

/-- The mutable state of an Easyfig instance: the merged read parser
(`self._parser`), the write parser (`self._save_parser`), and the bound
attributes. -/
structure EState where
  parser : ParserState
  saveParser : ParserState
  attrs : Attrs
deriving Repr

/-- One schema entry, after flattening the nested iteration of
src/__init__.py:96-97. -/
structure SchemaEnt where
  sec : String
  opt : String
  dv : PyValue
deriving Repr

/-- The schema entries in iteration order. -/
def flattenSchema (schema : Schema) : List SchemaEnt :=
  schema.flatMap (fun sd => sd.2.map (fun od => ⟨sd.1, od.1, od.2⟩))

namespace Easyfig

/-- Python `str == (key, value) tuple`: values of different types compare
unequal, so this is always `False`. -/
def strEqPair (_s : String) (_kv : String × String) : Bool := false

/-- `varname in self._parser.items(section)` (src/__init__.py:102,104):
membership of a string in a list of `(key, value)` pairs, which tests the
string for equality against each pair and therefore never succeeds. -/
def strInItems (s : String) (items : List (String × String)) : Bool :=
  items.any (fun kv => strEqPair s kv)

/-- `Easyfig._set` (src/__init__.py:140-156): ensure the section exists in the
write parser, serialize composite values as JSON and scalar values via `str`,
store the string, and return it.  `json.dumps` raises `TypeError` on
unserializable input; the `except` clause catches only `JSONDecodeError`,
which `dumps` never raises, so the error propagates. -/
def setInternal (sp : ParserState) (option : String) (value : PyValue)
    (sect : String) : Except PyError (String × ParserState) :=
  let sp := if sp.hasSection sect then sp else sp.addSection sect
  match value with
  | .list _ | .tuple _ | .dict _ =>
    match jsonDumps value with
    | .ok s => .ok (s, sp.set sect option s)
    | .error e => .error e
  | _ => .ok (pyStr value, sp.set sect option (pyStr value))

/-- `Easyfig.get` (src/__init__.py:128-138): read the option from the read
parser; on any `ParserError` write the default back through `_set` on the
write parser and return the resulting string.  Both branches already hold a
string, so the final `str(value)` is the identity. -/
def get (p sp : ParserState) (key : String) (default : PyValue)
    (sect : String) : Except PyError (String × ParserState) :=
  match p.get sect key with
  | some v => .ok (v, sp)
  | none => setInternal sp key default sect

/-- `Easyfig._set_attribute` (src/__init__.py:114-126): composite defaults go
through `json.loads` with apostrophes normalized to double quotes, falling
back to `type(default)(value)` on decode failure (the fallback's own errors
propagate); scalar defaults go through `type(default)(value)` with every
exception swallowed, keeping the old attribute value. -/
def setAttribute (attrs : Attrs) (varname : String) (value : String)
    (default : PyValue) : Except PyError Attrs :=
  match default with
  | .list _ | .tuple _ | .dict _ =>
    match jsonLoads (pyReplaceQuotes value) with
    | some v => .ok (setA attrs varname v)
    | none =>
      match compositeOfString default value with
      | .ok v => .ok (setA attrs varname v)
      | .error e => .error e
  | _ =>
    match scalarCast default value with
    | some v => .ok (setA attrs varname v)
    | none => .ok attrs

/-- The state threaded through the option loop of `Easyfig._load`. -/
structure LoopSt where
  p : ParserState
  sp : ParserState
  attrs : Attrs
deriving Repr

/-- One iteration of the option loop in `Easyfig._load`
(src/__init__.py:96-110).  `option.replace(chr(95), "", 1)` on a name that
starts with an underscore drops its first character. -/
def loadStep (st : LoopSt) (e : SchemaEnt) : Except PyError LoopSt := do
  let varname := if pyStartswith e.opt "_" then pyDrop1 e.opt else e.opt
  let p := if pyStartswith e.opt "_" then
      (if st.p.hasSection e.sec
          && strInItems varname ((lookupA st.p.sections e.sec).getD []) then
        st.p.removeOption e.sec varname
      else st.p)
    else st.p
  let sp := if pyStartswith e.opt "_" then
      (if st.sp.hasSection e.sec
          && strInItems varname ((lookupA st.sp.sections e.sec).getD []) then
        st.sp.removeOption e.sec varname
      else st.sp)
    else st.sp
  let varname := if e.sec ≠ "GENERAL" then pyLower e.sec ++ "_" ++ varname else varname
  let (val, sp') ← Easyfig.get p sp e.opt e.dv e.sec
  let attrs' ← setAttribute st.attrs varname val e.dv
  .ok ⟨p, sp', attrs'⟩

/-- The option loop of `Easyfig._load`, over the flattened schema. -/
def loadLoop : LoopSt → List SchemaEnt → Except PyError LoopSt
  | st, [] => .ok st
  | st, e :: es => do loadLoop (← loadStep st e) es

/-- `Easyfig._load` (src/__init__.py:85-112): rebuild the write parser from
the last file and the read parser from all files in order, run the option
loop, then persist the write parser to the last file (`self.save()`).
`load_additional_sections` is a no-op in the base class. -/
def load (schema : Schema) (files : List String) (attrs : Attrs) (d : Disk) :
    Except PyError (EState × Disk) :=
  match files.getLast? with
  | none => .error .indexError
  | some lastf => do
    let sp0 := readFileInto ParserState.empty d lastf
    let p0 := readAll files d
    let res ← loadLoop ⟨p0, sp0, attrs⟩ (flattenSchema schema)
    .ok (⟨res.p, res.sp, res.attrs⟩, diskSet d lastf res.sp)

/-- `Easyfig.__init__` (src/__init__.py:70-83): normalize the file list and
run `_load` on a fresh object, which has no bound attributes yet. -/
def init (schema : Schema) (files : List String) (d : Disk) :
    Except PyError (EState × Disk) :=
  load schema files [] d

/-- `Easyfig.save` (src/__init__.py:173-177): write the save parser to the
last configuration file, overwriting it entirely. -/
def save (files : List String) (st : EState) (d : Disk) : Except PyError Disk :=
  match files.getLast? with
  | none => .error .indexError
  | some lastf => .ok (diskSet d lastf st.saveParser)

/-- `Easyfig.set` (src/__init__.py:158-171): if the read parser lacks the
section, `_load` first; then, when the section exists, the option is a key of
its items and is not protected, delegate to `_set`, `save`, and `_load`
again, returning the serialized string; otherwise return `False` (modelled as
`none`). -/
def set (schema : Schema) (files : List String) (st : EState) (d : Disk)
    (option : String) (value : PyValue) (sect : String) :
    Except PyError (Option String × EState × Disk) := do
  let (st, d) ←
    if st.parser.hasSection sect then Except.ok (st, d)
    else load schema files st.attrs d
  if st.parser.hasSection sect
      && (keysA ((lookupA st.parser.sections sect).getD [])).contains option
      && !(pyStartswith option "_") then
    let (setval, sp') ← setInternal st.saveParser option value sect
    let st1 : EState := ⟨st.parser, sp', st.attrs⟩
    let d1 ← save files st1 d
    let (st2, d2) ← load schema files st1.attrs d1
    .ok (some setval, st2, d2)
  else
    .ok (none, st, d)

/-- `Easyfig.tostring` (src/__init__.py:179-189): `dict(self._parser.items(section))`
raises `NoSectionError` for a missing non-DEFAULT section; otherwise render
each non-protected option as `key : value` followed by a newline. -/
def tostring (st : EState) (sect : String) : Except PyError String := do
  let items ←
    if sect = "DEFAULT" then Except.ok ([] : List (String × String))
    else
      match lookupA st.parser.sections sect with
      | some es => Except.ok es
      | none => Except.error PyError.noSectionError
  .ok (items.foldl
    (fun out kv => if pyStartswith kv.1 "_" then out else out ++ kv.1 ++ " : " ++ kv.2 ++ "\n") "")

end Easyfig

/-! ### Derived forms used by the proofs -/

/-- The bound attribute name computed by `_load` for a schema entry
(src/__init__.py:98-100,106-107). -/
def varnameOf (sec opt : String) : String :=
  let v := if pyStartswith opt "_" then pyDrop1 opt else opt
  if sec ≠ "GENERAL" then pyLower sec ++ "_" ++ v else v

/-- The string `_set` stores and returns for a given value: JSON for
composites, `str` otherwise (src/__init__.py:144-156). -/
def serialDefault (v : PyValue) : Except PyError String :=
  match v with
  | .list _ | .tuple _ | .dict _ => jsonDumps v
  | _ => .ok (pyStr v)

/-- What `_set_attribute` does with one string for one default: `.ok (some v)`
binds `v`, `.ok none` keeps the old attribute, `.error` propagates. -/
def bindOutcome (value : String) (dv : PyValue) : Except PyError (Option PyValue) :=
  match dv with
  | .list _ | .tuple _ | .dict _ =>
    match jsonLoads (pyReplaceQuotes value) with
    | some v => .ok (some v)
    | none =>
      match compositeOfString dv value with
      | .ok v => .ok (some v)
      | .error e => .error e
  | _ => .ok (scalarCast dv value)

/-- The string `get` resolves for a schema entry against read parser `p`. -/
def firstString (p : ParserState) (e : SchemaEnt) : Except PyError String :=
  match p.get e.sec e.opt with
  | some v => .ok v
  | none => serialDefault e.dv

/-- The attribute value a schema entry binds against read parser `p`, `none`
when the entry keeps the old attribute (the error cases cannot occur in a
successful load and default to `none`). -/
def entryOutcome (p : ParserState) (e : SchemaEnt) : Option PyValue :=
  match firstString p e with
  | .ok s =>
    match bindOutcome s e.dv with
    | .ok o => o
    | .error _ => none
  | .error _ => none

/-- The last value bound to attribute name `k` by the schema entries, against
read parser `p`. -/
def lastBind (p : ParserState) : List SchemaEnt → String → Option PyValue
  | [], _ => none
  | e :: es, k =>
    match lastBind p es k with
    | some v => some v
    | none => if varnameOf e.sec e.opt = k then entryOutcome p e else none

/-- The `(section, option)` key of a schema entry. -/
def entKey (e : SchemaEnt) : String × String := (e.sec, e.opt)

/-- The inner fold of `readInto`: write every entry of one parsed section. -/
def foldSet (q : ParserState) (s : String) (es : Entries) : ParserState :=
  es.foldl (fun q kv => q.set s kv.1 kv.2) q

/-- The outer fold of `readInto`, over a list of parsed sections. -/
def readIntoAux (p : ParserState) (secs : List (String × Entries)) : ParserState :=
  secs.foldl (fun p sq => foldSet (p.addSection sq.1) sq.1 sq.2) p

/-- Is this Python value of a composite type (`list`, `dict`, `tuple`)? -/
def isComposite (v : PyValue) : Bool :=
  match v with
  | .list _ | .tuple _ | .dict _ => true
  | _ => false

/-- Is this Python value a `dict`? -/
def isDict (v : PyValue) : Bool :=
  match v with
  | .dict _ => true
  | _ => false

/-- Every file present on a disk is well-formed (ConfigParser only produces
such states). -/
def wfDisk (d : Disk) : Prop := ∀ f P, d f = some P → wfP P

/-! ### Association-list lemmas -/

@[simp] theorem keysA_nil {α : Type _} : keysA ([] : List (String × α)) = [] := rfl

@[simp] theorem keysA_cons {α : Type _} (kv : String × α) (t : List (String × α)) :
    keysA (kv :: t) = kv.1 :: keysA t := rfl

theorem keysA_append {α : Type _} (l1 l2 : List (String × α)) :
    keysA (l1 ++ l2) = keysA l1 ++ keysA l2 := by
  simp [keysA]

theorem lookupA_setA_self {α : Type _} (l : List (String × α)) (k : String) (v : α) :
    lookupA (setA l k v) k = some v := by
  induction l with
  | nil => simp [setA, lookupA]
  | cons kv t ih =>
    by_cases h : kv.1 = k
    · simp [setA, h, lookupA]
    · simp [setA, h, lookupA, ih]

theorem lookupA_setA_ne {α : Type _} (l : List (String × α)) (k k' : String) (v : α)
    (h : k' ≠ k) : lookupA (setA l k v) k' = lookupA l k' := by
  have h2 : ¬ (k = k') := fun hh => h hh.symm
  induction l with
  | nil => simp [setA, lookupA, h2]
  | cons kv t ih =>
    by_cases hk : kv.1 = k
    · subst hk
      simp [setA, lookupA, h2]
    · by_cases hk' : kv.1 = k'
      · simp [setA, lookupA, hk, hk', h]
      · simp [setA, lookupA, hk, hk', ih]

theorem lookupA_eq_none_of_not_mem {α : Type _} (l : List (String × α)) (k : String)
    (h : k ∉ keysA l) : lookupA l k = none := by
  induction l with
  | nil => rfl
  | cons kv t ih =>
    rw [keysA_cons, List.mem_cons] at h
    push_neg at h
    have hne : ¬ kv.1 = k := fun hh => h.1 hh.symm
    simp [lookupA, hne, ih h.2]

theorem mem_keysA_of_lookupA {α : Type _} (l : List (String × α)) (k : String) (v : α)
    (h : lookupA l k = some v) : k ∈ keysA l := by
  induction l with
  | nil => simp [lookupA] at h
  | cons kv t ih =>
    by_cases hk : kv.1 = k
    · simp [hk.symm]
    · simp only [lookupA, if_neg hk] at h
      simp [ih h]

theorem keysA_setA_of_mem {α : Type _} (l : List (String × α)) (k : String) (v : α)
    (h : k ∈ keysA l) : keysA (setA l k v) = keysA l := by
  induction l with
  | nil => simp at h
  | cons kv t ih =>
    by_cases hk : kv.1 = k
    · simp [setA, hk]
    · rw [keysA_cons, List.mem_cons] at h
      rcases h with h | h
    
      · exact absurd h.symm hk
      · simp [setA, hk, ih h]

theorem keysA_setA_of_not_mem {α : Type _} (l : List (String × α)) (k : String) (v : α)
    (h : k ∉ keysA l) : keysA (setA l k v) = keysA l ++ [k] := by
  induction l with
  | nil => simp [setA]
  | cons kv t ih =>
    rw [keysA_cons, List.mem_cons] at h
    push_neg at h
    have hne : ¬ kv.1 = k := fun hh => h.1 hh.symm
    simp [setA, hne, ih h.2]

theorem nodup_keysA_setA {α : Type _} (l : List (String × α)) (k : String) (v : α)
    (h : (keysA l).Nodup) : (keysA (setA l k v)).Nodup := by
  by_cases hm : k ∈ keysA l
  · rw [keysA_setA_of_mem l k v hm]; exact h
  · rw [keysA_setA_of_not_mem l k v hm]
    simpa [List.nodup_append] using ⟨h, hm⟩

theorem setA_append_of_not_mem {α : Type _} (l : List (String × α)) (k : String) (v : α)
    (h : k ∉ keysA l) : setA l k v = l ++ [(k, v)] := by
  induction l with
  | nil => rfl
  | cons kv t ih =>
    rw [keysA_cons, List.mem_cons] at h
    push_neg at h
    have hne : ¬ kv.1 = k := fun hh => h.1 hh.symm
    simp [setA, hne, ih h.2]

theorem setA_mid {α : Type _} (l1 : List (String × α)) (k : String) (v v' : α)
    (l2 : List (String × α)) (h : k ∉ keysA l1) :
    setA (l1 ++ (k, v) :: l2) k v' = l1 ++ (k, v') :: l2 := by
  induction l1 with
  | nil => simp [setA]
  | cons kv t ih =>
    rw [keysA_cons, List.mem_cons] at h
    push_neg at h
    have hne : ¬ kv.1 = k := fun hh => h.1 hh.symm
    simp [setA, hne, ih h.2]

/-! ### More association-list lemmas -/

theorem lookupA_append {α : Type _} (l1 l2 : List (String × α)) (k : String) :
    lookupA (l1 ++ l2) k =
      (match lookupA l1 k with
        | some v => some v
        | none => lookupA l2 k) := by
  induction l1 with
  | nil => simp [lookupA]
  | cons kv t ih =>
    by_cases h : kv.1 = k
    · simp [lookupA, h]
    · simp [lookupA, h, ih]

theorem lookupA_mem {α : Type _} (l : List (String × α)) (k : String) (v : α)
    (h : lookupA l k = some v) : (k, v) ∈ l := by
  induction l with
  | nil => simp [lookupA] at h
  | cons kv t ih =>
    cases kv with
    | mk a b =>
      by_cases hk : a = k
      · simp [lookupA, hk] at h
        subst hk
        subst h
        exact List.mem_cons_self _ _
      · simp [lookupA, hk] at h
        exact List.mem_cons_of_mem _ (ih h)

theorem mem_setA {α : Type _} (l : List (String × α)) (k : String) (v : α)
    (se : String × α) (h : se ∈ setA l k v) : se ∈ l ∨ se = (k, v) := by
  induction l with
  | nil => simp [setA] at h; simp [h]
  | cons kv t ih =>
    by_cases hk : kv.1 = k
    · simp only [setA, if_pos hk] at h
      rcases List.mem_cons.1 h with h | h
      · right; exact h
      · left; exact List.mem_cons_of_mem _ h
    · simp only [setA, if_neg hk] at h
      rcases List.mem_cons.1 h with h | h
      · left; simp [h]
      · rcases ih h with h | h
        · left; exact List.mem_cons_of_mem _ h
        · right; exact h

theorem lookupA_isSome_of_mem_keys {α : Type _} (l : List (String × α)) (k : String)
    (h : k ∈ keysA l) : (lookupA l k).isSome := by
  induction l with
  | nil => simp at h
  | cons kv t ih =>
    by_cases hk : kv.1 = k
    · simp [lookupA, hk]
    · rw [keysA_cons, List.mem_cons] at h
      rcases h with h | h
      · exact absurd h.symm hk
      · simp [lookupA, hk, ih h]

/-! ### ParserState lemmas -/

theorem hasSection_of_get_some (p : ParserState) (sec opt v : String)
    (h : p.get sec opt = some v) : p.hasSection sec = true := by
  unfold ParserState.get at h
  unfold ParserState.hasSection
  cases hl : lookupA p.sections sec with
  | none => rw [hl] at h; simp at h
  | some es => simp [hl]

theorem get_addSection (p : ParserState) (s sec opt : String) :
    (p.addSection s).get sec opt = p.get sec opt := by
  unfold ParserState.addSection
  by_cases h : p.hasSection s
  · simp [h]
  · simp only [h, if_neg, Bool.false_eq_true, if_false]
    unfold ParserState.get
    rw [lookupA_append]
    cases hl : lookupA p.sections sec with
    | some es => simp
    | none =>
      simp only [Option.rec]
      by_cases hs : s = sec
      · simp [lookupA, hs]
      · simp [lookupA, hs]

theorem hasSection_addSection_self (p : ParserState) (s : String) :
    (p.addSection s).hasSection s = true := by
  unfold ParserState.addSection
  by_cases h : p.hasSection s
  · simp [h]
  · simp only [h, Bool.false_eq_true, if_false]
    unfold ParserState.hasSection
    rw [lookupA_append]
    cases hl : lookupA p.sections s with
    | some es => simp
    | none => simp [lookupA]

theorem hasSection_addSection_mono (p : ParserState) (s s' : String)
    (h : p.hasSection s' = true) : (p.addSection s).hasSection s' = true := by
  unfold ParserState.addSection
  by_cases hh : p.hasSection s
  · simp [hh, h]
  · simp only [hh, Bool.false_eq_true, if_false]
    unfold ParserState.hasSection at h ⊢
    rw [lookupA_append]
    cases hl : lookupA p.sections s' with
    | some es => simp
    | none => rw [hl] at h; simp at h

theorem get_set_self (p : ParserState) (sec opt v : String)
    (h : p.hasSection sec = true) : (p.set sec opt v).get sec opt = some v := by
  unfold ParserState.hasSection at h
  cases hl : lookupA p.sections sec with
  | none => rw [hl] at h; simp at h
  | some es =>
    unfold ParserState.set
    rw [hl]
    unfold ParserState.get
    simp [lookupA_setA_self]

theorem get_set_ne (p : ParserState) (sec opt v sec' opt' : String)
    (h : ¬(sec' = sec ∧ opt' = opt)) :
    (p.set sec opt v).get sec' opt' = p.get sec' opt' := by
  unfold ParserState.set
  cases hl : lookupA p.sections sec with
  | none => rfl
  | some es =>
    unfold ParserState.get
    by_cases hs : sec' = sec
    · subst hs
      have hopt : opt' ≠ opt := fun hh => h ⟨rfl, hh⟩
      simp [lookupA_setA_self, hl, lookupA_setA_ne _ _ _ _ hopt]
    · simp [lookupA_setA_ne _ _ _ _ hs]

theorem hasSection_set (p : ParserState) (sec opt v s : String) :
    (p.set sec opt v).hasSection s = p.hasSection s := by
  unfold ParserState.set
  cases hl : lookupA p.sections sec with
  | none => rfl
  | some es =>
    unfold ParserState.hasSection
    by_cases hs : s = sec
    · subst hs
      simp [lookupA_setA_self, hl]
    · simp [lookupA_setA_ne _ _ _ _ hs]

theorem wfP_set (p : ParserState) (sec opt v : String) (h : wfP p) :
    wfP (p.set sec opt v) := by
  unfold ParserState.set
  cases hl : lookupA p.sections sec with
  | none => exact h
  | some es =>
    obtain ⟨hnd, hwf⟩ := h
    constructor
    · rw [keysA_setA_of_mem _ _ _ (mem_keysA_of_lookupA _ _ _ hl)]
      exact hnd
    · intro se hse
      rcases mem_setA _ _ _ _ hse with hm | hm
      · exact hwf se hm
      · subst hm
        exact nodup_keysA_setA _ _ _ (hwf _ (lookupA_mem _ _ _ hl))

theorem wfP_addSection (p : ParserState) (s : String) (h : wfP p) :
    wfP (p.addSection s) := by
  unfold ParserState.addSection
  by_cases hh : p.hasSection s
  · simp [hh, h]
  · simp only [hh, Bool.false_eq_true, if_false]
    obtain ⟨hnd, hwf⟩ := h
    constructor
    · rw [keysA_append]
      have hs : s ∉ keysA p.sections := by
        intro hm
        exact hh (lookupA_isSome_of_mem_keys _ _ hm)
      simpa [List.nodup_append] using ⟨hnd, hs⟩
    · intro se hse
      rcases List.mem_append.1 hse with hm | hm
      · exact hwf se hm
      · simp at hm
        subst hm
        exact List.nodup_nil

/-! ### readInto lemmas -/

theorem readInto_eq (p q : ParserState) : readInto p q = readIntoAux p q.sections := rfl

theorem foldSet_get_other (q : ParserState) (s : String) (es : Entries)
    (sec' opt : String) (hs : sec' ≠ s) :
    (foldSet q s es).get sec' opt = q.get sec' opt := by
  induction es generalizing q with
  | nil => rfl
  | cons kv t ih =>
    show (foldSet (q.set s kv.1 kv.2) s t).get sec' opt = _
    rw [ih, get_set_ne]
    intro hh
    exact hs hh.1

theorem foldSet_hasSection (q : ParserState) (s : String) (es : Entries) (s' : String) :
    (foldSet q s es).hasSection s' = q.hasSection s' := by
  induction es generalizing q with
  | nil => rfl
  | cons kv t ih =>
    show (foldSet (q.set s kv.1 kv.2) s t).hasSection s' = _
    rw [ih, hasSection_set]

theorem foldSet_get_self (q : ParserState) (s : String) (es : Entries) (opt : String)
    (hq : q.hasSection s = true) (hwf : wfE es) :
    (foldSet q s es).get s opt =
      (match lookupA es opt with
        | some v => some v
        | none => q.get s opt) := by
  induction es generalizing q with
  | nil => rfl
  | cons kv t ih =>
    show (foldSet (q.set s kv.1 kv.2) s t).get s opt = _
    unfold wfE at hwf
    rw [keysA_cons] at hwf
    have hnd := hwf.of_cons
    have hnm : kv.1 ∉ keysA t := by
      intro hm
      exact (List.nodup_cons.1 hwf).1 hm
    rw [ih _ (by rw [hasSection_set]; exact hq) hnd]
    by_cases ho : kv.1 = opt
    · subst ho
      rw [lookupA_eq_none_of_not_mem _ _ hnm]
      simp [lookupA, get_set_self _ _ _ _ hq]
    · simp only [lookupA, if_neg ho]
      cases hl : lookupA t opt with
      | some v => simp
      | none =>
        simp only []
        rw [get_set_ne]
        intro hh
        exact ho hh.2.symm

theorem foldSet_wf (q : ParserState) (s : String) (es : Entries) (h : wfP q) :
    wfP (foldSet q s es) := by
  induction es generalizing q with
  | nil => exact h
  | cons kv t ih =>
    exact ih _ (wfP_set _ _ _ _ h)

theorem readIntoAux_get (p : ParserState) (secs : List (String × Entries))
    (sec opt : String) (hnd : (keysA secs).Nodup) (hwf : ∀ se ∈ secs, wfE se.2) :
    (readIntoAux p secs).get sec opt =
      (match
          (match lookupA secs sec with
            | some es => lookupA es opt
            | none => none) with
        | some v => some v
        | none => p.get sec opt) := by
  induction secs generalizing p with
  | nil => rfl
  | cons sq rest ih =>
    show (readIntoAux (foldSet (p.addSection sq.1) sq.1 sq.2) rest).get sec opt = _
    rw [keysA_cons] at hnd
    have hnm : sq.1 ∉ keysA rest := (List.nodup_cons.1 hnd).1
    rw [ih _ hnd.of_cons (fun se hse => hwf se (List.mem_cons_of_mem _ hse))]
    by_cases hs : sq.1 = sec
    · subst hs
      rw [lookupA_eq_none_of_not_mem _ _ hnm]
      simp only [lookupA, if_pos rfl]
      rw [foldSet_get_self _ _ _ _ (hasSection_addSection_self _ _)
        (hwf sq (List.mem_cons_self _ _))]
      cases hl : lookupA sq.2 opt with
      | some v => simp [hl]
      | none => simp [hl, get_addSection]
    · simp only [lookupA, if_neg hs]
      rw [foldSet_get_other _ _ _ _ _ (fun hh => hs hh.symm), get_addSection]

theorem readIntoAux_wf (p : ParserState) (secs : List (String × Entries)) (h : wfP p) :
    wfP (readIntoAux p secs) := by
  induction secs generalizing p with
  | nil => exact h
  | cons sq rest ih =>
    exact ih _ (foldSet_wf _ _ _ (wfP_addSection _ _ h))

theorem readInto_get (p q : ParserState) (sec opt : String) (hq : wfP q) :
    (readInto p q).get sec opt =
      (match q.get sec opt with
        | some v => some v
        | none => p.get sec opt) := by
  rw [readInto_eq, readIntoAux_get _ _ _ _ hq.1 hq.2]
  rfl

theorem readInto_wf (p q : ParserState) (h : wfP p) : wfP (readInto p q) :=
  readIntoAux_wf _ _ h

theorem foldSet_build (pre : List (String × Entries)) (s : String) (done es : Entries)
    (hpre : s ∉ keysA pre) (hwf : wfE (done ++ es)) :
    foldSet ⟨pre ++ [(s, done)]⟩ s es = ⟨pre ++ [(s, done ++ es)]⟩ := by
  induction es generalizing done with
  | nil => simp [foldSet]
  | cons kv t ih =>
    show foldSet (ParserState.set _ s kv.1 kv.2) s t = _
    have hlook : lookupA (pre ++ [(s, done)]) s = some done := by
      rw [lookupA_append, lookupA_eq_none_of_not_mem _ _ hpre]
      simp [lookupA]
    have hkv : kv.1 ∉ keysA done := by
      intro hm
      unfold wfE at hwf
      rw [keysA_append, keysA_cons] at hwf
      exact (List.disjoint_of_nodup_append hwf) hm (List.mem_cons_self _ _)
    have hset : ParserState.set ⟨pre ++ [(s, done)]⟩ s kv.1 kv.2
        = ⟨pre ++ [(s, done ++ [kv])]⟩ := by
      unfold ParserState.set
      rw [hlook]
      dsimp only
      have h1 := setA_mid pre s done (setA done kv.1 kv.2) [] hpre
      have h2 : setA done kv.1 kv.2 = done ++ [kv] := by
        cases kv
        exact setA_append_of_not_mem _ _ _ hkv
      rw [h1, h2]
    rw [hset, ih (done ++ [kv]) (by simpa using hwf)]
    simp

theorem readIntoAux_build (pre secs : List (String × Entries))
    (hnd : (keysA (pre ++ secs)).Nodup) (hwf : ∀ se ∈ secs, wfE se.2) :
    readIntoAux ⟨pre⟩ secs = ⟨pre ++ secs⟩ := by
  induction secs generalizing pre with
  | nil => simp [readIntoAux]
  | cons sq rest ih =>
    rw [keysA_append, keysA_cons] at hnd
    have hpre : sq.1 ∉ keysA pre := by
      intro hm
      exact (List.disjoint_of_nodup_append hnd) hm (List.mem_cons_self _ _)
    have hadd : ParserState.addSection ⟨pre⟩ sq.1 = ⟨pre ++ [(sq.1, [])]⟩ := by
      unfold ParserState.addSection ParserState.hasSection
      rw [lookupA_eq_none_of_not_mem _ _ hpre]
      simp
    show readIntoAux (foldSet (ParserState.addSection ⟨pre⟩ sq.1) sq.1 sq.2) rest = _
    rw [hadd, foldSet_build pre sq.1 [] sq.2 hpre
      (by simpa using hwf sq (List.mem_cons_self _ _))]
    simp only [List.nil_append]
    have hres := ih (pre ++ [(sq.1, sq.2)])
      (by
        rw [keysA_append, keysA_append]
        simp only [keysA_cons, keysA_nil]
        have : sq.1 :: keysA rest = [sq.1] ++ keysA rest := rfl
        rw [this, ← List.append_assoc] at hnd
        simpa using hnd)
      (fun se hse => hwf se (List.mem_cons_of_mem _ hse))
    cases sq
    simpa using hres

theorem readInto_empty (q : ParserState) (h : wfP q) :
    readInto ParserState.empty q = q := by
  rw [readInto_eq]
  show readIntoAux ⟨[]⟩ q.sections = q
  rw [readIntoAux_build [] q.sections (by simpa using h.1) h.2]
  rfl

/-! ### Disk and readAll lemmas -/

theorem diskSet_self (d : Disk) (f : String) (P : ParserState) :
    diskSet d f P f = some P := by
  simp [diskSet]

theorem diskSet_ne (d : Disk) (f : String) (P : ParserState) (g : String) (h : g ≠ f) :
    diskSet d f P g = d g := by
  simp [diskSet, h]

theorem diskSet_eq_self (d : Disk) (f : String) (P : ParserState) (h : d f = some P) :
    diskSet d f P = d := by
  funext g
  by_cases hg : g = f
  · subst hg; simp [diskSet, h]
  · simp [diskSet, hg]

theorem foldl_readFileInto_congr (files : List String) (d1 d2 : Disk) (p : ParserState)
    (h : ∀ f ∈ files, d1 f = d2 f) :
    files.foldl (fun p f => readFileInto p d1 f) p
      = files.foldl (fun p f => readFileInto p d2 f) p := by
  induction files generalizing p with
  | nil => rfl
  | cons f rest ih =>
    show List.foldl _ (readFileInto p d1 f) rest = List.foldl _ (readFileInto p d2 f) rest
    rw [show readFileInto p d1 f = readFileInto p d2 f by
      unfold readFileInto; rw [h f (List.mem_cons_self _ _)]]
    exact ih _ (fun g hg => h g (List.mem_cons_of_mem _ hg))

theorem readAll_congr (files : List String) (d1 d2 : Disk)
    (h : ∀ f ∈ files, d1 f = d2 f) : readAll files d1 = readAll files d2 :=
  foldl_readFileInto_congr files d1 d2 ParserState.empty h

theorem eq_dropLast_concat_of_getLast? (files : List String) (lastf : String)
    (h : files.getLast? = some lastf) : files = files.dropLast ++ [lastf] := by
  have hne : files ≠ [] := by
    intro hh
    subst hh
    simp at h
  have h2 := List.getLast?_eq_getLast files hne
  rw [h2] at h
  have h3 := List.dropLast_append_getLast hne
  rw [Option.some.injEq] at h
  rw [h] at h3
  exact h3.symm

theorem readAll_concat (xs : List String) (f : String) (d : Disk) :
    readAll (xs ++ [f]) d = readFileInto (readAll xs d) d f := by
  unfold readAll
  rw [List.foldl_append]
  rfl

theorem getLast_not_mem_dropLast (files : List String) (lastf : String)
    (hnd : files.Nodup) (h : files.getLast? = some lastf) :
    lastf ∉ files.dropLast := by
  have hdec := eq_dropLast_concat_of_getLast? files lastf h
  rw [hdec] at hnd
  intro hm
  exact (List.disjoint_of_nodup_append hnd) hm (List.mem_cons_self _ _)

/-! ### Specification lemmas for the Easyfig operations -/

theorem strInItems_false (s : String) (items : List (String × String)) :
    Easyfig.strInItems s items = false := by
  simp [Easyfig.strInItems, Easyfig.strEqPair]

theorem setInternal_spec (sp : ParserState) (opt : String) (v : PyValue) (sect : String) :
    Easyfig.setInternal sp opt v sect =
      (match serialDefault v with
        | .ok s => .ok (s, ((if sp.hasSection sect then sp else sp.addSection sect).set sect opt s))
        | .error e => .error e) := by
  cases v with
  | list xs => cases hd : jsonDumps (.list xs) <;> simp [Easyfig.setInternal, serialDefault, hd]
  | tuple xs => cases hd : jsonDumps (.tuple xs) <;> simp [Easyfig.setInternal, serialDefault, hd]
  | dict kvs => cases hd : jsonDumps (.dict kvs) <;> simp [Easyfig.setInternal, serialDefault, hd]
  | _ => rfl

theorem get_hit (p sp : ParserState) (key : String) (dv : PyValue) (sect v : String)
    (h : p.get sect key = some v) : Easyfig.get p sp key dv sect = .ok (v, sp) := by
  simp [Easyfig.get, h]

theorem get_miss (p sp : ParserState) (key : String) (dv : PyValue) (sect : String)
    (h : p.get sect key = none) :
    Easyfig.get p sp key dv sect = Easyfig.setInternal sp key dv sect := by
  simp [Easyfig.get, h]

theorem setAttribute_spec (a : Attrs) (vn value : String) (dv : PyValue) :
    Easyfig.setAttribute a vn value dv =
      (match bindOutcome value dv with
        | .ok (some v) => .ok (setA a vn v)
        | .ok none => .ok a
        | .error e => .error e) := by
  cases dv with
  | int n => cases h : scalarCast (.int n) value <;> simp [Easyfig.setAttribute, bindOutcome, h]
  | bool b => cases h : scalarCast (.bool b) value <;> simp [Easyfig.setAttribute, bindOutcome, h]
  | str s => cases h : scalarCast (.str s) value <;> simp [Easyfig.setAttribute, bindOutcome, h]
  | obj => cases h : scalarCast .obj value <;> simp [Easyfig.setAttribute, bindOutcome, h]
  | list xs =>
    cases h : jsonLoads (pyReplaceQuotes value) with
    | some v => simp [Easyfig.setAttribute, bindOutcome, h]
    | none =>
      cases h2 : compositeOfString (.list xs) value
        <;> simp [Easyfig.setAttribute, bindOutcome, h, h2]
  | tuple xs =>
    cases h : jsonLoads (pyReplaceQuotes value) with
    | some v => simp [Easyfig.setAttribute, bindOutcome, h]
    | none =>
      cases h2 : compositeOfString (.tuple xs) value
        <;> simp [Easyfig.setAttribute, bindOutcome, h, h2]
  | dict kvs =>
    cases h : jsonLoads (pyReplaceQuotes value) with
    | some v => simp [Easyfig.setAttribute, bindOutcome, h]
    | none =>
      cases h2 : compositeOfString (.dict kvs) value
        <;> simp [Easyfig.setAttribute, bindOutcome, h, h2]

theorem loadStep_eq (st : Easyfig.LoopSt) (e : SchemaEnt) :
    Easyfig.loadStep st e =
      (match Easyfig.get st.p st.sp e.opt e.dv e.sec with
        | .error err => .error err
        | .ok (val, sp') =>
          match Easyfig.setAttribute st.attrs (varnameOf e.sec e.opt) val e.dv with
          | .error err => .error err
          | .ok a => .ok ⟨st.p, sp', a⟩) := by
  unfold Easyfig.loadStep
  simp only [strInItems_false, Bool.and_false, Bool.false_eq_true, if_false, ite_self]
  cases hg : Easyfig.get st.p st.sp e.opt e.dv e.sec with
  | error err => simp [varnameOf, Bind.bind, Except.bind]
  | ok pr =>
    cases pr with
    | mk val sp' =>
      simp only [varnameOf, Bind.bind, Except.bind]
      cases ha : Easyfig.setAttribute st.attrs
          (if e.sec ≠ "GENERAL" then
            pyLower e.sec ++ "_" ++ if pyStartswith e.opt "_" = true then pyDrop1 e.opt else e.opt
          else if pyStartswith e.opt "_" = true then pyDrop1 e.opt else e.opt)
          val e.dv <;> simp [ha]

/-! ### loadLoop lemmas -/

theorem ensure_get (sp : ParserState) (s sec opt : String) :
    (if sp.hasSection s then sp else sp.addSection s).get sec opt = sp.get sec opt := by
  split
  · rfl
  · exact get_addSection _ _ _ _

theorem ensure_hasSection_self (sp : ParserState) (s : String) :
    (if sp.hasSection s then sp else sp.addSection s).hasSection s = true := by
  split
  · assumption
  · exact hasSection_addSection_self _ _

theorem ensure_wf (sp : ParserState) (s : String) (h : wfP sp) :
    wfP (if sp.hasSection s then sp else sp.addSection s) := by
  split
  · exact h
  · exact wfP_addSection _ _ h

theorem loadLoop_cons (st : Easyfig.LoopSt) (e : SchemaEnt) (es : List SchemaEnt) :
    Easyfig.loadLoop st (e :: es) =
      (match Easyfig.loadStep st e with
        | .ok st1 => Easyfig.loadLoop st1 es
        | .error err => .error err) := by
  show Except.bind (Easyfig.loadStep st e) _ = _
  cases hs : Easyfig.loadStep st e <;> simp [Except.bind]

theorem loadStep_ok_inv (st : Easyfig.LoopSt) (e : SchemaEnt) (st1 : Easyfig.LoopSt)
    (h : Easyfig.loadStep st e = .ok st1) :
    ∃ val sp' a, Easyfig.get st.p st.sp e.opt e.dv e.sec = .ok (val, sp') ∧
      Easyfig.setAttribute st.attrs (varnameOf e.sec e.opt) val e.dv = .ok a ∧
      st1 = ⟨st.p, sp', a⟩ := by
  rw [loadStep_eq] at h
  cases hg : Easyfig.get st.p st.sp e.opt e.dv e.sec with
  | error err => rw [hg] at h; simp at h
  | ok pr =>
    cases pr with
    | mk val sp' =>
      rw [hg] at h
      dsimp only at h
      cases ha : Easyfig.setAttribute st.attrs (varnameOf e.sec e.opt) val e.dv with
      | error err => rw [ha] at h; simp at h
      | ok a =>
        rw [ha] at h
        simp only [Except.ok.injEq] at h
        exact ⟨val, sp', a, rfl, ha, h.symm⟩

theorem loadStep_p_const (st : Easyfig.LoopSt) (e : SchemaEnt) (st1 : Easyfig.LoopSt)
    (h : Easyfig.loadStep st e = .ok st1) : st1.p = st.p := by
  obtain ⟨val, sp', a, _, _, hst⟩ := loadStep_ok_inv st e st1 h
  rw [hst]

theorem loadLoop_p_const (es : List SchemaEnt) (st r : Easyfig.LoopSt)
    (h : Easyfig.loadLoop st es = .ok r) : r.p = st.p := by
  induction es generalizing st with
  | nil =>
    simp only [Easyfig.loadLoop, Except.ok.injEq] at h
    rw [← h]
  | cons e es ih =>
    rw [loadLoop_cons] at h
    cases hs : Easyfig.loadStep st e with
    | error err => rw [hs] at h; simp at h
    | ok st1 =>
      rw [hs] at h
      rw [ih st1 h, loadStep_p_const st e st1 hs]

theorem loadStep_sp_other (st : Easyfig.LoopSt) (e : SchemaEnt) (st1 : Easyfig.LoopSt)
    (h : Easyfig.loadStep st e = .ok st1) (sec opt : String)
    (hne : ¬(e.sec = sec ∧ e.opt = opt)) :
    st1.sp.get sec opt = st.sp.get sec opt := by
  obtain ⟨val, sp', a, hg, _, hst⟩ := loadStep_ok_inv st e st1 h
  rw [hst]
  show sp'.get sec opt = _
  cases hp : st.p.get e.sec e.opt with
  | some v =>
    rw [get_hit _ _ _ _ _ _ hp] at hg
    cases hg
    rfl
  | none =>
    rw [get_miss _ _ _ _ _ hp, setInternal_spec] at hg
    cases hd : serialDefault e.dv with
    | error err => rw [hd] at hg; simp at hg
    | ok s =>
      rw [hd] at hg
      simp only [Except.ok.injEq, Prod.mk.injEq] at hg
      rw [← hg.2, get_set_ne _ _ _ _ _ _ (fun hh => hne ⟨hh.1.symm, hh.2.symm⟩), ensure_get]

theorem loadLoop_sp_untouched (es : List SchemaEnt) (st r : Easyfig.LoopSt)
    (h : Easyfig.loadLoop st es = .ok r) (sec opt : String)
    (hno : ∀ e ∈ es, ¬(e.sec = sec ∧ e.opt = opt)) :
    r.sp.get sec opt = st.sp.get sec opt := by
  induction es generalizing st with
  | nil =>
    simp only [Easyfig.loadLoop, Except.ok.injEq] at h
    rw [← h]
  | cons e es ih =>
    rw [loadLoop_cons] at h
    cases hs : Easyfig.loadStep st e with
    | error err => rw [hs] at h; simp at h
    | ok st1 =>
      rw [hs] at h
      rw [ih st1 h (fun f hf => hno f (List.mem_cons_of_mem _ hf)),
        loadStep_sp_other st e st1 hs sec opt (hno e (List.mem_cons_self _ _))]

theorem loadLoop_sp_miss (es : List SchemaEnt) (st r : Easyfig.LoopSt)
    (h : Easyfig.loadLoop st es = .ok r) (hnd : (es.map entKey).Nodup)
    (e : SchemaEnt) (he : e ∈ es) (hm : st.p.get e.sec e.opt = none) :
    ∃ s, serialDefault e.dv = .ok s ∧ r.sp.get e.sec e.opt = some s := by
  induction es generalizing st with
  | nil => simp at he
  | cons f es ih =>
    rw [loadLoop_cons] at h
    cases hs : Easyfig.loadStep st f with
    | error err => rw [hs] at h; simp at h
    | ok st1 =>
      rw [hs] at h
      rw [List.map_cons, List.nodup_cons] at hnd
      rcases List.mem_cons.1 he with he | he
      · subst he
        obtain ⟨val, sp', a, hg, _, hst⟩ := loadStep_ok_inv st e st1 hs
        rw [get_miss _ _ _ _ _ hm, setInternal_spec] at hg
        cases hd : serialDefault e.dv with
        | error err => rw [hd] at hg; simp at hg
        | ok s =>
          rw [hd] at hg
          simp only [Except.ok.injEq, Prod.mk.injEq] at hg
          refine ⟨s, rfl, ?_⟩
          have hun := loadLoop_sp_untouched es st1 r h e.sec e.opt ?hno
          case hno =>
            intro f hf hkey
            exact hnd.1 (by
              rw [show entKey e = entKey f from by
                simp [entKey, hkey.1, hkey.2]]
              exact List.mem_map_of_mem entKey hf)
          rw [hun, hst]
          show sp'.get e.sec e.opt = some s
          rw [← hg.2, get_set_self]
          exact ensure_hasSection_self _ _
      · have hp1 : st1.p = st.p := loadStep_p_const st f st1 hs
        exact ih st1 h hnd.2 he (by rw [hp1]; exact hm)

theorem loadLoop_sp_hit (es : List SchemaEnt) (st r : Easyfig.LoopSt)
    (h : Easyfig.loadLoop st es = .ok r) (hnd : (es.map entKey).Nodup)
    (e : SchemaEnt) (he : e ∈ es) (v : String) (hm : st.p.get e.sec e.opt = some v) :
    r.sp.get e.sec e.opt = st.sp.get e.sec e.opt := by
  induction es generalizing st with
  | nil => simp at he
  | cons f es ih =>
    rw [loadLoop_cons] at h
    cases hs : Easyfig.loadStep st f with
    | error err => rw [hs] at h; simp at h
    | ok st1 =>
      rw [hs] at h
      rw [List.map_cons, List.nodup_cons] at hnd
      rcases List.mem_cons.1 he with he | he
      · subst he
        obtain ⟨val, sp', a, hg, _, hst⟩ := loadStep_ok_inv st e st1 hs
        rw [get_hit _ _ _ _ _ _ hm] at hg
        cases hg
        have hun := loadLoop_sp_untouched es st1 r h e.sec e.opt ?hno
        case hno =>
          intro f hf hkey
          exact hnd.1 (by
            rw [show entKey e = entKey f from by
              simp [entKey, hkey.1, hkey.2]]
            exact List.mem_map_of_mem entKey hf)
        rw [hun, hst]
      · have hp1 : st1.p = st.p := loadStep_p_const st f st1 hs
        have hother := loadStep_sp_other st f st1 hs e.sec e.opt ?hne
        case hne =>
          intro hkey
          exact hnd.1 (by
            rw [show entKey f = entKey e from by
              simp [entKey, hkey.1, hkey.2]]
            exact List.mem_map_of_mem entKey he)
        rw [ih st1 h hnd.2 he (by rw [hp1]; exact hm), hother]

theorem loadStep_sp_wf (st : Easyfig.LoopSt) (e : SchemaEnt) (st1 : Easyfig.LoopSt)
    (h : Easyfig.loadStep st e = .ok st1) (hwf : wfP st.sp) : wfP st1.sp := by
  obtain ⟨val, sp', a, hg, _, hst⟩ := loadStep_ok_inv st e st1 h
  rw [hst]
  show wfP sp'
  cases hp : st.p.get e.sec e.opt with
  | some v =>
    rw [get_hit _ _ _ _ _ _ hp] at hg
    cases hg
    exact hwf
  | none =>
    rw [get_miss _ _ _ _ _ hp, setInternal_spec] at hg
    cases hd : serialDefault e.dv with
    | error err => rw [hd] at hg; simp at hg
    | ok s =>
      rw [hd] at hg
      simp only [Except.ok.injEq, Prod.mk.injEq] at hg
      rw [← hg.2]
      exact wfP_set _ _ _ _ (ensure_wf _ _ hwf)

theorem loadLoop_sp_wf (es : List SchemaEnt) (st r : Easyfig.LoopSt)
    (h : Easyfig.loadLoop st es = .ok r) (hwf : wfP st.sp) : wfP r.sp := by
  induction es generalizing st with
  | nil =>
    simp only [Easyfig.loadLoop, Except.ok.injEq] at h
    rw [← h]
    exact hwf
  | cons e es ih =>
    rw [loadLoop_cons] at h
    cases hs : Easyfig.loadStep st e with
    | error err => rw [hs] at h; simp at h
    | ok st1 =>
      rw [hs] at h
      exact ih st1 h (loadStep_sp_wf st e st1 hs hwf)

theorem loadLoop_strings (es : List SchemaEnt) (st r : Easyfig.LoopSt)
    (h : Easyfig.loadLoop st es = .ok r) :
    ∀ e ∈ es, ∃ s o, firstString st.p e = .ok s ∧ bindOutcome s e.dv = .ok o := by
  induction es generalizing st with
  | nil => intro e he; simp at he
  | cons f es ih =>
    rw [loadLoop_cons] at h
    cases hs : Easyfig.loadStep st f with
    | error err => rw [hs] at h; simp at h
    | ok st1 =>
      rw [hs] at h
      intro e he
      rcases List.mem_cons.1 he with he | he
      · subst he
        obtain ⟨val, sp', a, hg, ha, hst⟩ := loadStep_ok_inv st e st1 hs
        rw [setAttribute_spec] at ha
        cases hb : bindOutcome val e.dv with
        | error err => rw [hb] at ha; simp at ha
        | ok o =>
          cases hp : st.p.get e.sec e.opt with
          | some v =>
            rw [get_hit _ _ _ _ _ _ hp] at hg
            cases hg
            exact ⟨val, o, by simp [firstString, hp], hb⟩
          | none =>
            rw [get_miss _ _ _ _ _ hp, setInternal_spec] at hg
            cases hd : serialDefault e.dv with
            | error err => rw [hd] at hg; simp at hg
            | ok s =>
              rw [hd] at hg
              simp only [Except.ok.injEq, Prod.mk.injEq] at hg
              refine ⟨s, o, by simp [firstString, hp, hd], ?_⟩
              rw [hg.1]
              exact hb
      · have hp1 : st1.p = st.p := loadStep_p_const st f st1 hs
        have := ih st1 h e he
        rw [hp1] at this
        exact this

theorem loadLoop_attrs (es : List SchemaEnt) (st r : Easyfig.LoopSt)
    (h : Easyfig.loadLoop st es = .ok r) (k : String) :
    lookupA r.attrs k =
      (match lastBind st.p es k with
        | some v => some v
        | none => lookupA st.attrs k) := by
  induction es generalizing st with
  | nil =>
    simp only [Easyfig.loadLoop, Except.ok.injEq] at h
    rw [← h, lastBind]
  | cons e es ih =>
    rw [loadLoop_cons] at h
    cases hs : Easyfig.loadStep st e with
    | error err => rw [hs] at h; simp at h
    | ok st1 =>
      rw [hs] at h
      obtain ⟨val, sp', a, hg, ha, hst⟩ := loadStep_ok_inv st e st1 hs
      rw [setAttribute_spec] at ha
      cases hb : bindOutcome val e.dv with
      | error err => rw [hb] at ha; simp at ha
      | ok o =>
        rw [hb] at ha
        have hfs : firstString st.p e = .ok val := by
          cases hp : st.p.get e.sec e.opt with
          | some v =>
            rw [get_hit _ _ _ _ _ _ hp] at hg
            cases hg
            simp [firstString, hp]
          | none =>
            rw [get_miss _ _ _ _ _ hp, setInternal_spec] at hg
            cases hd : serialDefault e.dv with
            | error err => rw [hd] at hg; simp at hg
            | ok s =>
              rw [hd] at hg
              simp only [Except.ok.injEq, Prod.mk.injEq] at hg
              simp [firstString, hp, hd, hg.1]
        have hout : entryOutcome st.p e = o := by
          simp [entryOutcome, hfs, hb]
        have hihr := ih st1 h
        rw [loadStep_p_const st e st1 hs] at hihr
        have hattrs1 : st1.attrs =
            (match o with
              | some v => setA st.attrs (varnameOf e.sec e.opt) v
              | none => st.attrs) := by
          cases o with
          | some v =>
            dsimp only at ha
            simp only [Except.ok.injEq] at ha
            rw [hst]
            exact ha.symm
          | none =>
            dsimp only at ha
            simp only [Except.ok.injEq] at ha
            rw [hst]
            exact ha.symm
        rw [hihr]
        simp only [lastBind]
        cases hl : lastBind st.p es k with
        | some v => simp
        | none =>
          rw [hattrs1]
          by_cases hk : varnameOf e.sec e.opt = k
          · simp only [if_pos hk, hout]
            cases o with
            | some v => subst hk; simp [lookupA_setA_self]
            | none => simp
          · simp only [if_neg hk, hout]
            cases o with
            | some v => simp [lookupA_setA_ne _ _ _ _ (fun hh => hk hh.symm)]
            | none => simp

theorem lastBind_congr (p1 p2 : ParserState) (es : List SchemaEnt) (k : String)
    (h : ∀ e ∈ es, entryOutcome p1 e = entryOutcome p2 e) :
    lastBind p1 es k = lastBind p2 es k := by
  induction es with
  | nil => rfl
  | cons e es ih =>
    rw [lastBind, lastBind, ih (fun f hf => h f (List.mem_cons_of_mem _ hf)),
      h e (List.mem_cons_self _ _)]

theorem loadLoop_allhit (es : List SchemaEnt) (st : Easyfig.LoopSt)
    (hits : ∀ e ∈ es, ∃ s, st.p.get e.sec e.opt = some s ∧
      ∃ o, bindOutcome s e.dv = .ok o) :
    ∃ a, Easyfig.loadLoop st es = .ok ⟨st.p, st.sp, a⟩ := by
  induction es generalizing st with
  | nil =>
    refine ⟨st.attrs, ?_⟩
    show Except.ok st = _
    rfl
  | cons e es ih =>
    obtain ⟨s, hp, o, hb⟩ := hits e (List.mem_cons_self _ _)
    cases o with
    | some v =>
      have hstep : Easyfig.loadStep st e =
          .ok ⟨st.p, st.sp, setA st.attrs (varnameOf e.sec e.opt) v⟩ := by
        rw [loadStep_eq, get_hit _ _ _ _ _ _ hp]
        dsimp only
        rw [setAttribute_spec, hb]
      obtain ⟨a, hrest⟩ := ih ⟨st.p, st.sp, setA st.attrs (varnameOf e.sec e.opt) v⟩
        (fun f hf => hits f (List.mem_cons_of_mem _ hf))
      exact ⟨a, by rw [loadLoop_cons, hstep]; exact hrest⟩
    | none =>
      have hstep : Easyfig.loadStep st e = .ok ⟨st.p, st.sp, st.attrs⟩ := by
        rw [loadStep_eq, get_hit _ _ _ _ _ _ hp]
        dsimp only
        rw [setAttribute_spec, hb]
      obtain ⟨a, hrest⟩ := ih ⟨st.p, st.sp, st.attrs⟩
        (fun f hf => hits f (List.mem_cons_of_mem _ hf))
      exact ⟨a, by rw [loadLoop_cons, hstep]; exact hrest⟩

/-! ### load-level lemmas -/

theorem empty_get (sec opt : String) : ParserState.empty.get sec opt = none := rfl

theorem wfP_empty : wfP ParserState.empty := by
  constructor
  · exact List.nodup_nil
  · intro se hse
    simp [ParserState.empty] at hse

theorem load_ok_inv (schema : Schema) (files : List String) (attrs : Attrs) (d : Disk)
    (st' : EState) (d' : Disk) (h : Easyfig.load schema files attrs d = .ok (st', d')) :
    ∃ lastf r, files.getLast? = some lastf ∧
      Easyfig.loadLoop ⟨readAll files d, readFileInto ParserState.empty d lastf, attrs⟩
        (flattenSchema schema) = .ok r ∧
      st' = ⟨r.p, r.sp, r.attrs⟩ ∧ d' = diskSet d lastf r.sp := by
  unfold Easyfig.load at h
  cases hl : files.getLast? with
  | none => rw [hl] at h; simp at h
  | some lastf =>
    rw [hl] at h
    dsimp only at h
    cases hr : Easyfig.loadLoop ⟨readAll files d, readFileInto ParserState.empty d lastf, attrs⟩
        (flattenSchema schema) with
    | error err =>
      rw [hr] at h
      simp [Bind.bind, Except.bind] at h
    | ok r =>
      rw [hr] at h
      simp only [Bind.bind, Except.bind, Except.ok.injEq, Prod.mk.injEq] at h
      exact ⟨lastf, r, rfl, hr, h.1.symm, h.2.symm⟩

theorem load_twice (schema : Schema) (files : List String) (a0 : Attrs) (d0 : Disk)
    (st1 : EState) (d1 : Disk)
    (hdisk : wfDisk d0)
    (hfiles : files.Nodup)
    (hschema : ((flattenSchema schema).map entKey).Nodup)
    (h1 : Easyfig.load schema files a0 d0 = .ok (st1, d1)) :
    ∃ st2, Easyfig.load schema files st1.attrs d1 = .ok (st2, d1) ∧
      st2.saveParser = st1.saveParser ∧
      (∀ k, lookupA st2.attrs k = lookupA st1.attrs k) := by
  obtain ⟨lastf, r, hlast, hloop, hst1, hd1⟩ := load_ok_inv schema files a0 d0 st1 d1 h1
  have hwf_sp0 : wfP (readFileInto ParserState.empty d0 lastf) := by
    unfold readFileInto
    cases hf : d0 lastf with
    | none => exact wfP_empty
    | some F0 => exact readInto_wf _ _ wfP_empty
  have hwfr : wfP r.sp := loadLoop_sp_wf _ _ _ hloop hwf_sp0
  have hd1last : d1 lastf = some r.sp := by rw [hd1]; exact diskSet_self _ _ _
  have hdec := eq_dropLast_concat_of_getLast? files lastf hlast
  have hnm := getLast_not_mem_dropLast files lastf hfiles hlast
  have hbase_eq : readAll files.dropLast d1 = readAll files.dropLast d0 := by
    apply readAll_congr
    intro f hf
    rw [hd1, diskSet_ne]
    intro hfe
    exact hnm (hfe ▸ hf)
  have hp2 : readAll files d1 = readInto (readAll files.dropLast d0) r.sp := by
    conv_lhs => rw [hdec]
    rw [readAll_concat, hbase_eq]
    unfold readFileInto
    rw [hd1last]
  have hp1 : readAll files d0 = readFileInto (readAll files.dropLast d0) d0 lastf := by
    conv_lhs => rw [hdec]
    rw [readAll_concat]
  -- every schema entry resolves in the re-read parser to the string of the first pass
  have hits : ∀ e ∈ flattenSchema schema, ∃ s,
      (readAll files d1).get e.sec e.opt = some s ∧
      firstString (readAll files d0) e = .ok s ∧
      ∃ o, bindOutcome s e.dv = .ok o := by
    intro e he
    obtain ⟨s, o, hfs, hb⟩ := loadLoop_strings _ _ _ hloop e he
    cases hp : (readAll files d0).get e.sec e.opt with
    | some v =>
      have hfsv : firstString (readAll files d0) e = .ok v := by
        simp [firstString, hp]
      rw [hfsv] at hfs
      cases hfs
      refine ⟨s, ?_, hfsv, o, hb⟩
      have hrsp : r.sp.get e.sec e.opt
          = (readFileInto ParserState.empty d0 lastf).get e.sec e.opt :=
        loadLoop_sp_hit _ _ _ hloop hschema e he s hp
      rw [hp2, readInto_get _ _ _ _ hwfr, hrsp]
      unfold readFileInto
      cases hf : d0 lastf with
      | none =>
        rw [hp1] at hp
        unfold readFileInto at hp
        rw [hf] at hp
        simp only [empty_get]
        exact hp
      | some F0 =>
        have hsp0F : (readInto ParserState.empty F0).get e.sec e.opt = F0.get e.sec e.opt := by
          rw [readInto_get _ _ _ _ (hdisk lastf F0 hf)]
          cases hF : F0.get e.sec e.opt <;> simp [empty_get]
        rw [hsp0F]
        rw [hp1] at hp
        unfold readFileInto at hp
        rw [hf] at hp
        rw [readInto_get _ _ _ _ (hdisk lastf F0 hf)] at hp
        cases hF : F0.get e.sec e.opt with
        | some w => rw [hF] at hp; simp at hp; simp [hp]
        | none => rw [hF] at hp; simp at hp; simp [hp]
    | none =>
      obtain ⟨s2, hser, hrsp⟩ := loadLoop_sp_miss _ _ _ hloop hschema e he hp
      have hfs2 : firstString (readAll files d0) e = .ok s2 := by
        simp [firstString, hp, hser]
      rw [hfs2] at hfs
      cases hfs
      refine ⟨s, ?_, hfs2, o, hb⟩
      rw [hp2, readInto_get _ _ _ _ hwfr, hrsp]
  -- the second pass hits on every entry and leaves the write parser alone
  have hsp02 : readFileInto ParserState.empty d1 lastf = r.sp := by
    unfold readFileInto
    rw [hd1last]
    exact readInto_empty _ hwfr
  obtain ⟨b, hloop2⟩ := loadLoop_allhit (flattenSchema schema)
    ⟨readAll files d1, r.sp, st1.attrs⟩
    (fun e he => by
      obtain ⟨s, hp2e, _, o, hb⟩ := hits e he
      exact ⟨s, hp2e, o, hb⟩)
  refine ⟨⟨readAll files d1, r.sp, b⟩, ?_, ?_, ?_⟩
  · unfold Easyfig.load
    rw [hlast]
    dsimp only
    rw [hsp02, hloop2]
    simp only [Bind.bind, Except.bind]
    rw [diskSet_eq_self _ _ _ hd1last]
  · rw [hst1]
  · intro k
    have hchar2 := loadLoop_attrs _ _ _ hloop2 k
    have hchar1 := loadLoop_attrs _ _ _ hloop k
    have hcong : lastBind (readAll files d1) (flattenSchema schema) k
        = lastBind (readAll files d0) (flattenSchema schema) k := by
      apply lastBind_congr
      intro e he
      obtain ⟨s, hp2e, hfs1, o, hb⟩ := hits e he
      have hfs2 : firstString (readAll files d1) e = .ok s := by
        simp [firstString, hp2e]
      simp [entryOutcome, hfs1, hfs2]
    have hst1a : st1.attrs = r.attrs := by rw [hst1]
    simp only at hchar2
    rw [hchar2, hcong, hst1a, hchar1]
    cases hl2 : lastBind (readAll files d0) (flattenSchema schema) k with
    | some v => simp
    | none => simp

/-! ### Decimal round-trip lemmas -/

theorem charDigit_toNat (k : Nat) (h : k < 10) : (Char.ofNat (48 + k)).toNat = 48 + k := by
  interval_cases k <;> decide

theorem renderNatAux_digits (fuel n : Nat) (h : n < fuel) :
    ∀ c ∈ renderNatAux fuel n, 48 ≤ c.toNat ∧ c.toNat ≤ 57 := by
  induction fuel generalizing n with
  | zero => omega
  | succ fuel ih =>
    intro c hc
    unfold renderNatAux at hc
    by_cases hn : n < 10
    · rw [if_pos hn] at hc
      simp at hc
      subst hc
      rw [charDigit_toNat n hn]
      omega
    · rw [if_neg hn] at hc
      rcases List.mem_append.1 hc with hm | hm
      · exact ih (n / 10) (by omega) c hm
      · simp at hm
        subst hm
        rw [charDigit_toNat (n % 10) (by omega)]
        omega

theorem renderNatAux_ne_nil (fuel n : Nat) (h : n < fuel) : renderNatAux fuel n ≠ [] := by
  cases fuel with
  | zero => omega
  | succ fuel =>
    unfold renderNatAux
    by_cases hn : n < 10
    · simp [hn]
    · simp [hn]

theorem parseDigits_append (xs ys : List Char) (acc : Nat) :
    parseDigits (xs ++ ys) acc =
      (match parseDigits xs acc with
        | some a => parseDigits ys a
        | none => none) := by
  induction xs generalizing acc with
  | nil => simp [parseDigits]
  | cons c cs ih =>
    by_cases hc : isDigitCh c
    · simp [parseDigits, hc, ih]
    · simp [parseDigits, hc]

theorem parseDigits_renderNatAux (fuel n acc : Nat) (h : n < fuel) :
    parseDigits (renderNatAux fuel n) acc
      = some (acc * 10 ^ (renderNatAux fuel n).length + n) := by
  induction fuel generalizing n acc with
  | zero => omega
  | succ fuel ih =>
    unfold renderNatAux
    by_cases hn : n < 10
    · rw [if_pos hn]
      have hd : isDigitCh (Char.ofNat (48 + n)) = true := by
        unfold isDigitCh
        rw [charDigit_toNat n hn]
        simp
        omega
      simp [parseDigits, hd, charDigit_toNat n hn]
      try omega
    · rw [if_neg hn]
      rw [parseDigits_append]
      rw [ih (n / 10) acc (by omega)]
      have hd : isDigitCh (Char.ofNat (48 + n % 10)) = true := by
        unfold isDigitCh
        rw [charDigit_toNat (n % 10) (by omega)]
        simp
        omega
      simp [parseDigits, hd, charDigit_toNat (n % 10) (by omega)]
      rw [pow_succ]
      ring_nf
      omega

theorem dropWhile_eq_self_of_none {α : Type _} (p : α → Bool) (l : List α)
    (h : ∀ c ∈ l, p c = false) : l.dropWhile p = l := by
  cases l with
  | nil => rfl
  | cons c cs =>
    rw [List.dropWhile_cons, h c (List.mem_cons_self _ _)]
    simp

theorem stripSpaces_of_digits (cs : List Char) (h : ∀ c ∈ cs, 48 ≤ c.toNat ∧ c.toNat ≤ 57) :
    stripSpaces cs = cs := by
  have hns : ∀ c ∈ cs, (c = ' ' : Bool) = false := by
    intro c hc
    have := h c hc
    simp only [decide_eq_false_iff_not]
    intro he
    subst he
    simp at this
  unfold stripSpaces
  rw [dropWhile_eq_self_of_none _ _ hns]
  rw [dropWhile_eq_self_of_none _ _ (fun c hc => hns c (List.mem_reverse.1 hc))]
  simp

theorem pyIntOfString_renderInt (v : Int) : pyIntOfString (renderInt v) = some v := by
  by_cases hv : v < 0
  · unfold renderInt
    rw [if_pos hv]
    unfold pyIntOfString
    have htl : (String.mk (Char.ofNat 45 :: renderNat v.natAbs)).toList
        = Char.ofNat 45 :: renderNat v.natAbs := rfl
    rw [htl]
    have hdig := renderNatAux_digits (v.natAbs + 1) v.natAbs (by omega)
    have hstrip : stripSpaces (Char.ofNat 45 :: renderNat v.natAbs)
        = Char.ofNat 45 :: renderNat v.natAbs := by
      have hns : ∀ c ∈ Char.ofNat 45 :: renderNat v.natAbs, (c = ' ' : Bool) = false := by
        intro c hc
        rcases List.mem_cons.1 hc with hc | hc
        · subst hc; decide
        · have := hdig c hc
          simp only [decide_eq_false_iff_not]
          intro he
          subst he
          simp at this
      unfold stripSpaces
      rw [dropWhile_eq_self_of_none _ _ hns]
      rw [dropWhile_eq_self_of_none _ _ (fun c hc => hns c (List.mem_reverse.1 hc))]
      simp
    rw [hstrip]
    have hne := renderNatAux_ne_nil (v.natAbs + 1) v.natAbs (by omega)
    have hparse := parseDigits_renderNatAux (v.natAbs + 1) v.natAbs 0 (by omega)
    cases hcs : renderNat v.natAbs with
    | nil => exact absurd hcs hne
    | cons c2 rest =>
      unfold renderNat at hcs
      rw [hcs] at hparse
      dsimp only
      rw [if_pos rfl]
      rw [hparse]
      simp
      rw [abs_of_nonpos (le_of_lt hv)]
      simp
  · unfold renderInt
    rw [if_neg hv]
    unfold pyIntOfString
    have htl : (String.mk (renderNat v.natAbs)).toList = renderNat v.natAbs := rfl
    rw [htl]
    have hdig := renderNatAux_digits (v.natAbs + 1) v.natAbs (by omega)
    rw [show stripSpaces (renderNat v.natAbs) = renderNat v.natAbs from
      stripSpaces_of_digits _ hdig]
    have hne := renderNatAux_ne_nil (v.natAbs + 1) v.natAbs (by omega)
    have hparse := parseDigits_renderNatAux (v.natAbs + 1) v.natAbs 0 (by omega)
    cases hcs : renderNat v.natAbs with
    | nil => exact absurd hcs hne
    | cons c rest =>
      unfold renderNat at hcs
      have hcd := hdig c (by rw [hcs]; exact List.mem_cons_self _ _)
      have hc45 : ¬ (c = Char.ofNat 45) := by
        intro he
        subst he
        revert hcd
        decide
      have hc43 : ¬ (c = Char.ofNat 43) := by
        intro he
        subst he
        revert hcd
        decide
      rw [hcs] at hparse
      dsimp only
      rw [if_neg hc45, if_neg hc43]
      rw [hparse]
      simp
      exact le_of_not_lt hv

/-! ### contains / lookup bridges -/

theorem contains_keysA_of_lookup {α : Type _} (es : List (String × α)) (k : String) (v : α)
    (h : lookupA es k = some v) : (keysA es).contains k = true := by
  induction es with
  | nil => simp [lookupA] at h
  | cons kv t ih =>
    by_cases hk : kv.1 = k
    · simp [List.contains, hk]
    · simp only [lookupA, if_neg hk] at h
      simp [List.contains] at ih ⊢
      rcases ih h with h2
      right
      exact h2

theorem contains_keysA_false_of_lookup_none {α : Type _} (es : List (String × α)) (k : String)
    (h : lookupA es k = none) : (keysA es).contains k = false := by
  induction es with
  | nil => rfl
  | cons kv t ih =>
    by_cases hk : kv.1 = k
    · simp [lookupA, hk] at h
    · simp only [lookupA, if_neg hk] at h
      simp [List.contains, hk] at ih ⊢
      exact ⟨fun he => hk he.symm, ih h⟩

theorem bindOutcome_error_isDict (value : String) (dv : PyValue) (e : PyError)
    (h : bindOutcome value dv = .error e) : isDict dv = true := by
  cases dv with
  | dict kvs => rfl
  | list xs =>
    unfold bindOutcome at h
    cases hl : jsonLoads (pyReplaceQuotes value) with
    | some v => rw [hl] at h; simp at h
    | none => rw [hl] at h; simp [compositeOfString] at h
  | tuple xs =>
    unfold bindOutcome at h
    cases hl : jsonLoads (pyReplaceQuotes value) with
    | some v => rw [hl] at h; simp at h
    | none => rw [hl] at h; simp [compositeOfString] at h
  | int n => simp [bindOutcome] at h
  | bool b => simp [bindOutcome] at h
  | str s => simp [bindOutcome] at h
  | obj => simp [bindOutcome] at h

/-! ### Claim theorems -/

/-- C1: the claim says that during Load any entry under the stripped name of a
protected option is removed from both the read and the write parser.  The code
never removes it: the membership test `varname in parser.items(section)`
compares a string against `(key, value)` tuples and is always false (the
code's own comment at src/__init__.py:101 states the removal intent, so this
is a bug in the code).  At the failing input — schema protecting `_locked`,
file containing a stray `locked = 5` — the stray entry survives in the read
parser, in the write parser, and in the rewritten save file. -/
theorem c1_removal_never_happens :
    (Easyfig.init [("GENERAL", [("_locked", PyValue.int 0)])] ["config.ini"]
      (fun f => if f = "config.ini" then some ⟨[("GENERAL", [("locked", "5")])]⟩ else none)).map
      (fun r => (r.1.parser.get "GENERAL" "locked",
        r.1.saveParser.get "GENERAL" "locked",
        (r.2 "config.ini").map (fun P => P.get "GENERAL" "locked")))
    = .ok (some "5", some "5", some (some "5")) := by
  rfl

/-- C2 (counterexample): with schema `{"GENERAL": {"count": 1, "_locked": 0}}`
and no file on disk, the file written by Save does contain an entry for the
protected option — `get` writes the missing default back under its full name
`_locked` through `_set`, which performs no protection filtering — refuting
the claim that the save file "contains no entry for the protected option". -/
theorem c2_counterexample :
    (Easyfig.init [("GENERAL", [("count", PyValue.int 1), ("_locked", PyValue.int 0)])]
      ["config.ini"] emptyDisk).map
      (fun r => (r.2 "config.ini").map (fun P => P.get "GENERAL" "_locked"))
    = .ok (some (some "0")) ∧
    ¬ ((Easyfig.init [("GENERAL", [("count", PyValue.int 1), ("_locked", PyValue.int 0)])]
      ["config.ini"] emptyDisk).map
      (fun r => (r.2 "config.ini").map (fun P => P.get "GENERAL" "_locked"))
    = .ok (some none)) := by
  constructor
  · rfl
  · intro h
    have h2 : (Easyfig.init [("GENERAL", [("count", PyValue.int 1), ("_locked", PyValue.int 0)])]
        ["config.ini"] emptyDisk).map
        (fun r => (r.2 "config.ini").map (fun P => P.get "GENERAL" "_locked"))
      = Except.ok (some (some "0")) := rfl
    rw [h2] at h
    simp at h

/-- C2 (amended): in the scenario — schema `{"GENERAL": {"count": 1, "_locked": 0}}`,
no file on disk — after construction the bound attributes satisfy
`count == 1` and `locked == 0`, and the save file contains `count = 1` in
`[GENERAL]`, no entry under the stripped name `locked`, but it does contain
the protected option written back under its full name, `_locked = 0`. -/
theorem c2_amended_scenario :
    (Easyfig.init [("GENERAL", [("count", PyValue.int 1), ("_locked", PyValue.int 0)])]
      ["config.ini"] emptyDisk).map
      (fun r =>
        (lookupA r.1.attrs "count", lookupA r.1.attrs "locked",
          (r.2 "config.ini").map (fun P =>
            (P.get "GENERAL" "count", P.get "GENERAL" "locked", P.get "GENERAL" "_locked"))))
    = .ok (some (PyValue.int 1), some (PyValue.int 0),
        some (some "1", none, some "0")) := by
  rfl

/-- C3 (counterexample): with schema `{"GENERAL": {"count": 1}}` and a file
whose `count` holds the non-numeric string `hello`, construction binds no
attribute at all for the schema entry — on cast failure `_set_attribute`
keeps the (nonexistent) old value instead of falling back to the default —
refuting "exactly one bound attribute exists for that entry ... regardless of
whether the source files are present or corrupted". -/
theorem c3_counterexample_no_attribute :
    (Easyfig.init [("GENERAL", [("count", PyValue.int 1)])] ["config.ini"]
      (fun f => if f = "config.ini" then some ⟨[("GENERAL", [("count", "hello")])]⟩ else none)).map
      (fun r => (r.1.attrs, lookupA r.1.attrs "count"))
    = .ok ([], none) := by
  rfl

/-- C8 (counterexample): with a dict-typed default and an on-disk value that
is not JSON, the bind step raises: `json.loads` fails with `JSONDecodeError`,
the fallback `dict("hello")` raises `ValueError`, and nothing catches it, so
construction itself propagates the exception — refuting "the cast/bind step
never raises". -/
theorem c8_counterexample_dict_raises :
    Easyfig.init [("GENERAL", [("m", PyValue.dict [])])] ["config.ini"]
      (fun f => if f = "config.ini" then some ⟨[("GENERAL", [("m", "hello")])]⟩ else none)
    = .error PyError.valueError := by
  rfl

/-- C9: `tostring` on a section that is missing from the read parser (and is
not the special DEFAULT section) propagates the parser's `NoSectionError`
raised by `self._parser.items(section)` instead of returning a string. -/
theorem c9_tostring_missing_section_raises (st : EState) (sect : String)
    (hsect : sect ≠ "DEFAULT")
    (h : lookupA st.parser.sections sect = none) :
    Easyfig.tostring st sect = .error PyError.noSectionError := by
  unfold Easyfig.tostring
  rw [if_neg hsect, h]
  rfl

/-- Witness for C9 at a concrete input. -/
theorem c9_tostring_missing_section_raises_witness :
    ("NOPE" ≠ "DEFAULT") ∧
    lookupA (ParserState.empty).sections "NOPE" = none ∧
    Easyfig.tostring ⟨ParserState.empty, ParserState.empty, []⟩ "NOPE"
      = .error PyError.noSectionError := by
  refine ⟨by decide, rfl, ?_⟩
  exact c9_tostring_missing_section_raises ⟨ParserState.empty, ParserState.empty, []⟩ "NOPE"
    (by decide) rfl

/-- C10: serializing a composite value containing a JSON-unserializable
element raises `TypeError` out of `_set` — the surrounding `except` catches
only `json.decoder.JSONDecodeError`, which `json.dumps` never raises — and
the error propagates to the caller of `get` (on default write-back) and of
`set` (when its guard passes). -/
theorem c10_unserializable_composite_raises (v : PyValue)
    (hcomp : isComposite v = true)
    (hser : jsonDumps v = .error PyError.typeError) :
    (∀ (sp : ParserState) (option sect : String),
      Easyfig.setInternal sp option v sect = .error PyError.typeError) ∧
    (∀ (p sp : ParserState) (key sect : String), p.get sect key = none →
      Easyfig.get p sp key v sect = .error PyError.typeError) ∧
    (∀ (schema : Schema) (files : List String) (st : EState) (d : Disk)
      (option sect : String) (es : Entries) (w : String),
      st.parser.hasSection sect = true →
      lookupA st.parser.sections sect = some es →
      lookupA es option = some w →
      pyStartswith option "_" = false →
      Easyfig.set schema files st d option v sect = .error PyError.typeError) := by
  have h1 : ∀ (sp : ParserState) (option sect : String),
      Easyfig.setInternal sp option v sect = .error PyError.typeError := by
    intro sp option sect
    rw [setInternal_spec]
    have hserial : serialDefault v = .error PyError.typeError := by
      cases v <;> simp [isComposite] at hcomp <;> simp [serialDefault, hser]
    rw [hserial]
  refine ⟨h1, ?_, ?_⟩
  · intro p sp key sect hmiss
    rw [get_miss _ _ _ _ _ hmiss]
    exact h1 sp key sect
  · intro schema files st d option sect es w hsec hes hw hprot
    unfold Easyfig.set
    rw [hsec]
    simp only [Bind.bind, Except.bind, if_true]
    have hguard : (st.parser.hasSection sect
        && (keysA ((lookupA st.parser.sections sect).getD [])).contains option
        && !(pyStartswith option "_")) = true := by
      rw [hsec, hes]
      simp [hprot, mem_keysA_of_lookupA es option w hw]
    rw [hguard]
    simp only [if_true]
    rw [h1 st.saveParser option sect]

/-- Witness for C10 at `[obj]`, a list holding an unserializable object. -/
theorem c10_unserializable_composite_raises_witness :
    isComposite (PyValue.list [PyValue.obj]) = true ∧
    jsonDumps (PyValue.list [PyValue.obj]) = .error PyError.typeError ∧
    Easyfig.setInternal ParserState.empty "x" (PyValue.list [PyValue.obj]) "GENERAL"
      = .error PyError.typeError := by
  refine ⟨rfl, rfl, ?_⟩
  exact (c10_unserializable_composite_raises (PyValue.list [PyValue.obj]) rfl rfl).1
    ParserState.empty "x" "GENERAL"

/-- C8 (amended): `Get` never raises provided composite defaults are
JSON-serializable, and the cast/bind step never raises for scalar, list and
tuple defaults; for dict defaults, a JSON parse failure falls back to
`dict(raw string)`, which itself raises for any nonempty raw string and
propagates (see the counterexample). -/
theorem c8_amended_no_raise_except_dict :
    (∀ (a : Attrs) (vn value : String) (dv : PyValue),
      isDict dv = false → ∃ a2, Easyfig.setAttribute a vn value dv = .ok a2) ∧
    (∀ (p sp : ParserState) (key : String) (dv : PyValue) (sect : String),
      (isComposite dv = true → ∃ s, jsonDumps dv = .ok s) →
      ∃ r, Easyfig.get p sp key dv sect = .ok r) := by
  constructor
  · intro a vn value dv hd
    cases hb : bindOutcome value dv with
    | ok o =>
      cases o with
      | some v => exact ⟨setA a vn v, by rw [setAttribute_spec, hb]⟩
      | none => exact ⟨a, by rw [setAttribute_spec, hb]⟩
    | error e =>
      rw [bindOutcome_error_isDict value dv e hb] at hd
      simp at hd
  · intro p sp key dv sect hdump
    cases hp : p.get sect key with
    | some v => exact ⟨(v, sp), get_hit _ _ _ _ _ _ hp⟩
    | none =>
      have hserial : ∃ s, serialDefault dv = .ok s := by
        cases dv with
        | list xs =>
          obtain ⟨s, hs⟩ := hdump rfl
          exact ⟨s, by simp [serialDefault, hs]⟩
        | tuple xs =>
          obtain ⟨s, hs⟩ := hdump rfl
          exact ⟨s, by simp [serialDefault, hs]⟩
        | dict kvs =>
          obtain ⟨s, hs⟩ := hdump rfl
          exact ⟨s, by simp [serialDefault, hs]⟩
        | int n => exact ⟨_, rfl⟩
        | bool b => exact ⟨_, rfl⟩
        | str s => exact ⟨_, rfl⟩
        | obj => exact ⟨_, rfl⟩
      obtain ⟨s, hs⟩ := hserial
      refine ⟨(s, (if sp.hasSection sect then sp else sp.addSection sect).set sect key s), ?_⟩
      rw [get_miss _ _ _ _ _ hp, setInternal_spec, hs]

/-- Witness for the amended C8: an int default never raises in the bind step,
and `get` succeeds for a serializable list default. -/
theorem c8_amended_no_raise_except_dict_witness :
    (isDict (PyValue.int 0) = false ∧
      ∃ a2, Easyfig.setAttribute [] "x" "hello" (PyValue.int 0) = .ok a2) ∧
    ((isComposite (PyValue.list []) = true → ∃ s, jsonDumps (PyValue.list []) = .ok s) ∧
      ∃ r, Easyfig.get ParserState.empty ParserState.empty "k" (PyValue.list []) "GENERAL"
        = .ok r) := by
  refine ⟨⟨rfl, ?_⟩, ⟨fun _ => ⟨"[]", rfl⟩, ?_⟩⟩
  · exact c8_amended_no_raise_except_dict.1 [] "x" "hello" (PyValue.int 0) rfl
  · exact c8_amended_no_raise_except_dict.2 ParserState.empty ParserState.empty "k"
      (PyValue.list []) "GENERAL" (fun _ => ⟨"[]", rfl⟩)

theorem varnameOf_general (opt : String) (hopt : pyStartswith opt "_" = false) :
    varnameOf "GENERAL" opt = opt := by
  simp [varnameOf, hopt]

theorem load_single_int (opt : String) (dv : Int) (files : List String) (lastf : String)
    (d : Disk) (s : String) (a : Attrs)
    (hlast : files.getLast? = some lastf)
    (hopt : pyStartswith opt "_" = false)
    (hres : (readAll files d).get "GENERAL" opt = some s) :
    Easyfig.load [("GENERAL", [(opt, PyValue.int dv)])] files a d
      = .ok (⟨readAll files d, readFileInto ParserState.empty d lastf,
          (match pyIntOfString s with
            | some k => setA a opt (PyValue.int k)
            | none => a)⟩,
        diskSet d lastf (readFileInto ParserState.empty d lastf)) := by
  unfold Easyfig.load
  rw [hlast]
  dsimp only
  have hflat : flattenSchema [("GENERAL", [(opt, PyValue.int dv)])]
      = [⟨"GENERAL", opt, PyValue.int dv⟩] := rfl
  rw [hflat]
  have hstep : Easyfig.loadStep
      ⟨readAll files d, readFileInto ParserState.empty d lastf, a⟩
      ⟨"GENERAL", opt, PyValue.int dv⟩
      = .ok ⟨readAll files d, readFileInto ParserState.empty d lastf,
          (match pyIntOfString s with
            | some k => setA a opt (PyValue.int k)
            | none => a)⟩ := by
    rw [loadStep_eq]
    rw [get_hit _ _ _ _ _ _ hres]
    dsimp only
    rw [setAttribute_spec]
    have hb : bindOutcome s (PyValue.int dv) = .ok ((pyIntOfString s).map PyValue.int) := rfl
    rw [hb, varnameOf_general opt hopt]
    cases hc : pyIntOfString s with
    | some k => rfl
    | none => rfl
  rw [loadLoop_cons, hstep]
  rfl

/-- C3 (amended): for a scalar (int) schema entry resolving to string `s` in
the merged read state, construction yields exactly one bound attribute, of the
default's type, whenever the cast succeeds; when the cast fails the attribute
keeps its previous value — which after construction means no attribute is
bound at all (rather than falling back to the default value). -/
theorem c3_amended_scalar_bind (opt : String) (dv : Int) (f : String) (d : Disk) (s : String)
    (hopt : pyStartswith opt "_" = false)
    (hres : (readAll [f] d).get "GENERAL" opt = some s) :
    ∃ st d', Easyfig.init [("GENERAL", [(opt, PyValue.int dv)])] [f] d = .ok (st, d') ∧
      st.attrs = (match pyIntOfString s with
        | some k => [(opt, PyValue.int k)]
        | none => []) :=
  ⟨_, _, load_single_int opt dv [f] f d s [] rfl hopt hres, rfl⟩

/-- Witness for the amended C3: a well-formed value binds the int; the
corrupted value binds nothing. -/
theorem c3_amended_scalar_bind_witness :
    (pyStartswith "count" "_" = false ∧
      (readAll ["config.ini"]
        (fun f => if f = "config.ini" then some ⟨[("GENERAL", [("count", "5")])]⟩ else none)).get
        "GENERAL" "count" = some "5" ∧
      ∃ st d', Easyfig.init [("GENERAL", [("count", PyValue.int 1)])] ["config.ini"]
          (fun f => if f = "config.ini" then some ⟨[("GENERAL", [("count", "5")])]⟩ else none)
          = .ok (st, d') ∧
        st.attrs = (match pyIntOfString "5" with
          | some k => [("count", PyValue.int k)]
          | none => [])) := by
  refine ⟨rfl, rfl, ?_⟩
  exact c3_amended_scalar_bind "count" 1 "config.ini" _ "5" rfl rfl

/-- C5: with an ordered file list `[f1, f2]` where both files define option
`x` in section GENERAL, the bound attribute after Load equals the cast of
f2's value (the last file wins), and Save targets only `f2`: every other file
on disk is untouched. -/
theorem c5_last_file_wins (f1 f2 x : String) (dv : Int) (d : Disk) (P1 P2 : ParserState)
    (s1 s2 : String) (k : Int)
    (hne : f1 ≠ f2) (hx : pyStartswith x "_" = false)
    (h1 : d f1 = some P1) (h2 : d f2 = some P2) (hwf2 : wfP P2)
    (hv1 : P1.get "GENERAL" x = some s1) (hv2 : P2.get "GENERAL" x = some s2)
    (hcast : pyIntOfString s2 = some k) :
    ∃ st d', Easyfig.init [("GENERAL", [(x, PyValue.int dv)])] [f1, f2] d = .ok (st, d') ∧
      lookupA st.attrs x = some (PyValue.int k) ∧
      d' f1 = d f1 ∧ (∀ g, g ≠ f2 → d' g = d g) := by
  have hres : (readAll [f1, f2] d).get "GENERAL" x = some s2 := by
    have hra : readAll [f1, f2] d
        = readInto (readFileInto ParserState.empty d f1) P2 := by
      show readFileInto (readFileInto ParserState.empty d f1) d f2 = _
      unfold readFileInto
      rw [h2]
    rw [hra, readInto_get _ _ _ _ hwf2, hv2]
  refine ⟨_, _, load_single_int x dv [f1, f2] f2 d s2 [] rfl hx hres, ?_, ?_, ?_⟩
  · rw [hcast]
    simp [lookupA]
  · exact diskSet_ne _ _ _ _ hne
  · intro g hg
    exact diskSet_ne _ _ _ _ hg

/-- Witness for C5 at two concrete files both defining `x`. -/
theorem c5_last_file_wins_witness :
    ("a.ini" ≠ "b.ini") ∧
    ∃ st d', Easyfig.init [("GENERAL", [("x", PyValue.int 0)])] ["a.ini", "b.ini"]
        (fun f => if f = "a.ini" then some ⟨[("GENERAL", [("x", "1")])]⟩
          else if f = "b.ini" then some ⟨[("GENERAL", [("x", "2")])]⟩ else none)
        = .ok (st, d') ∧
      lookupA st.attrs "x" = some (PyValue.int 2) ∧
      d' "a.ini" = (fun f => if f = "a.ini" then some (⟨[("GENERAL", [("x", "1")])]⟩ : ParserState)
          else if f = "b.ini" then some ⟨[("GENERAL", [("x", "2")])]⟩ else none) "a.ini" ∧
      (∀ g, g ≠ "b.ini" →
        d' g = (fun f => if f = "a.ini" then some (⟨[("GENERAL", [("x", "1")])]⟩ : ParserState)
          else if f = "b.ini" then some ⟨[("GENERAL", [("x", "2")])]⟩ else none) g) := by
  refine ⟨by decide, ?_⟩
  exact c5_last_file_wins "a.ini" "b.ini" "x" 0 _ ⟨[("GENERAL", [("x", "1")])]⟩
    ⟨[("GENERAL", [("x", "2")])]⟩ "1" "2" 2 (by decide) rfl rfl rfl (by decide) rfl rfl rfl

/-- C6: Load is idempotent.  For a fixed schema and file state, if a Load
succeeded then running Load again on the resulting state (same schema and
files, the disk as the first Load left it, the attributes it bound) succeeds,
leaves the disk unchanged, and produces identical bound attribute values. -/
theorem c6_load_idempotent (schema : Schema) (files : List String) (a0 : Attrs)
    (d0 : Disk) (st1 : EState) (d1 : Disk)
    (hdisk : wfDisk d0) (hfiles : files.Nodup)
    (hschema : ((flattenSchema schema).map entKey).Nodup)
    (h1 : Easyfig.load schema files a0 d0 = .ok (st1, d1)) :
    ∃ st2, Easyfig.load schema files st1.attrs d1 = .ok (st2, d1) ∧
      ∀ k, lookupA st2.attrs k = lookupA st1.attrs k := by
  obtain ⟨st2, h, _, hk⟩ := load_twice schema files a0 d0 st1 d1 hdisk hfiles hschema h1
  exact ⟨st2, h, hk⟩

/-- Witness for C6 at a concrete construction from an empty disk. -/
theorem c6_load_idempotent_witness :
    wfDisk emptyDisk ∧ (["config.ini"] : List String).Nodup ∧
    ((flattenSchema [("GENERAL", [("count", PyValue.int 1)])]).map entKey).Nodup ∧
    ∃ st2, Easyfig.load [("GENERAL", [("count", PyValue.int 1)])] ["config.ini"]
        (⟨ParserState.empty, ⟨[("GENERAL", [("count", "1")])]⟩,
          [("count", PyValue.int 1)]⟩ : EState).attrs
        (diskSet emptyDisk "config.ini" ⟨[("GENERAL", [("count", "1")])]⟩)
        = .ok (st2, diskSet emptyDisk "config.ini" ⟨[("GENERAL", [("count", "1")])]⟩) ∧
      ∀ k, lookupA st2.attrs k
        = lookupA (⟨ParserState.empty, ⟨[("GENERAL", [("count", "1")])]⟩,
            [("count", PyValue.int 1)]⟩ : EState).attrs k := by
  have hd : wfDisk emptyDisk := by
    intro f P h
    simp [emptyDisk] at h
  refine ⟨hd, by decide, by decide, ?_⟩
  exact c6_load_idempotent [("GENERAL", [("count", PyValue.int 1)])] ["config.ini"] []
    emptyDisk
    ⟨ParserState.empty, ⟨[("GENERAL", [("count", "1")])]⟩, [("count", PyValue.int 1)]⟩
    (diskSet emptyDisk "config.ini" ⟨[("GENERAL", [("count", "1")])]⟩)
    hd (by decide) (by decide) rfl

/-- C4 (counterexample): immediately after construction with no pre-existing
file, the read parser has no GENERAL section at all, so `count` is absent
from the read parser's section; yet `Set("count", 7)` does not return the
failure indicator — it reloads, finds the freshly materialized option, and
succeeds, returning "7" and rewriting the save file.  This refutes the claim
as stated (for the state at call time). -/
theorem c4_counterexample :
    (do
      let r1 ← Easyfig.init [("GENERAL", [("count", PyValue.int 1)])] ["config.ini"] emptyDisk
      let r2 ← Easyfig.set [("GENERAL", [("count", PyValue.int 1)])] ["config.ini"] r1.1 r1.2
        "count" (PyValue.int 7) "GENERAL"
      Except.ok (r1.1.parser.hasSection "GENERAL",
        (r1.2 "config.ini").map (fun (P : ParserState) => P.get "GENERAL" "count"),
        r2.1,
        (r2.2.2 "config.ini").map (fun (P : ParserState) => P.get "GENERAL" "count")))
    = .ok (false, some (some "1"), some "7", some (some "7")) := by
  rfl

/-- C4 (amended): from any state produced by a Load, a Set call whose guard
fails — the option is protected, or the section is present in the read parser
and the option is absent from it — returns the failure indicator `False`
(here `none`), not an exception, and performs no mutation: the returned disk
is unchanged and the write parser's contents are preserved.  (When the read
parser lacks the section entirely, Set first re-Loads and may then succeed;
see the counterexample.) -/
theorem c4_amended_guard_failure (schema : Schema) (files : List String) (a0 : Attrs)
    (d0 : Disk) (st : EState) (d : Disk)
    (option : String) (value : PyValue) (sect : String)
    (hdisk : wfDisk d0) (hfiles : files.Nodup)
    (hschema : ((flattenSchema schema).map entKey).Nodup)
    (hload : Easyfig.load schema files a0 d0 = .ok (st, d))
    (hfail : pyStartswith option "_" = true ∨
      (∃ es, lookupA st.parser.sections sect = some es ∧ lookupA es option = none)) :
    ∃ st', Easyfig.set schema files st d option value sect = .ok (none, st', d) ∧
      st'.saveParser = st.saveParser := by
  unfold Easyfig.set
  cases hs : st.parser.hasSection sect with
  | true =>
    simp only [hs, if_true, Bind.bind, Except.bind]
    have hcond : (true
        && (keysA ((lookupA st.parser.sections sect).getD [])).contains option
        && !(pyStartswith option "_")) = false := by
      rcases hfail with hp | ⟨es, hes, hnone⟩
      · rw [hp]
        simp
      · rw [hes]
        simp only [Option.getD_some]
        rw [contains_keysA_false_of_lookup_none es option hnone]
        simp
    rw [hcond]
    simp only [Bool.false_eq_true, if_false]
    exact ⟨st, rfl, rfl⟩
  | false =>
    have hprot : pyStartswith option "_" = true := by
      rcases hfail with hp | ⟨es, hes, _⟩
      · exact hp
      · unfold ParserState.hasSection at hs
        rw [hes] at hs
        simp at hs
    simp only [hs, Bool.false_eq_true, if_false, Bind.bind, Except.bind]
    obtain ⟨st2, hl2, hsp2, _⟩ :=
      load_twice schema files a0 d0 st d hdisk hfiles hschema hload
    rw [hl2]
    dsimp only
    have hcond : (st2.parser.hasSection sect
        && (keysA ((lookupA st2.parser.sections sect).getD [])).contains option
        && !(pyStartswith option "_")) = false := by
      rw [hprot]
      simp
    rw [hcond]
    simp only [Bool.false_eq_true, if_false]
    exact ⟨st2, rfl, hsp2⟩

/-- Witness for the amended C4: Set on a protected name from a freshly
constructed store fails and mutates nothing. -/
theorem c4_amended_guard_failure_witness :
    pyStartswith "_x" "_" = true ∧
    ∃ st', Easyfig.set [("GENERAL", [("count", PyValue.int 1)])] ["config.ini"]
        ⟨ParserState.empty, ⟨[("GENERAL", [("count", "1")])]⟩, [("count", PyValue.int 1)]⟩
        (diskSet emptyDisk "config.ini" ⟨[("GENERAL", [("count", "1")])]⟩)
        "_x" (PyValue.int 9) "GENERAL"
        = .ok (none, st',
          diskSet emptyDisk "config.ini" ⟨[("GENERAL", [("count", "1")])]⟩) ∧
      st'.saveParser
        = (⟨ParserState.empty, ⟨[("GENERAL", [("count", "1")])]⟩,
            [("count", PyValue.int 1)]⟩ : EState).saveParser := by
  have hd : wfDisk emptyDisk := by
    intro f P h
    simp [emptyDisk] at h
  refine ⟨rfl, ?_⟩
  exact c4_amended_guard_failure [("GENERAL", [("count", PyValue.int 1)])] ["config.ini"]
    [] emptyDisk
    ⟨ParserState.empty, ⟨[("GENERAL", [("count", "1")])]⟩, [("count", PyValue.int 1)]⟩
    (diskSet emptyDisk "config.ini" ⟨[("GENERAL", [("count", "1")])]⟩)
    "_x" (PyValue.int 9) "GENERAL" hd (by decide) (by decide) rfl (Or.inl rfl)

theorem load_single_scalar (opt : String) (dv : PyValue) (files : List String)
    (lastf : String) (d : Disk) (s : String) (a : Attrs)
    (hlast : files.getLast? = some lastf)
    (hopt : pyStartswith opt "_" = false)
    (hdv : isComposite dv = false)
    (hres : (readAll files d).get "GENERAL" opt = some s) :
    Easyfig.load [("GENERAL", [(opt, dv)])] files a d
      = .ok (⟨readAll files d, readFileInto ParserState.empty d lastf,
          (match scalarCast dv s with
            | some w => setA a opt w
            | none => a)⟩,
        diskSet d lastf (readFileInto ParserState.empty d lastf)) := by
  unfold Easyfig.load
  rw [hlast]
  dsimp only
  have hflat : flattenSchema [("GENERAL", [(opt, dv)])]
      = [⟨"GENERAL", opt, dv⟩] := rfl
  rw [hflat]
  have hstep : Easyfig.loadStep
      ⟨readAll files d, readFileInto ParserState.empty d lastf, a⟩
      ⟨"GENERAL", opt, dv⟩
      = .ok ⟨readAll files d, readFileInto ParserState.empty d lastf,
          (match scalarCast dv s with
            | some w => setA a opt w
            | none => a)⟩ := by
    rw [loadStep_eq]
    rw [get_hit _ _ _ _ _ _ hres]
    dsimp only
    rw [setAttribute_spec]
    have hb : bindOutcome s dv = .ok (scalarCast dv s) := by
      cases dv <;> simp [isComposite] at hdv <;> rfl
    rw [hb, varnameOf_general opt hopt]
    cases hc : scalarCast dv s with
    | some w => rfl
    | none => rfl
  rw [loadLoop_cons, hstep]
  rfl

/-- C7 (counterexample): for a non-protected, pre-existing bool-typed option,
`Set("flag", False)` returns the serialized string "False" as the claim says,
but the subsequent bound attribute is `True`, not the canonical cast of
`False` — the reload casts the stored string through `bool`, and
`bool("False")` is `True` because the string is nonempty — so the claim, as
stated for every option and value, is false. -/
theorem c7_counterexample_bool :
    (do
      let r1 ← Easyfig.init [("GENERAL", [("flag", PyValue.bool true)])] ["c.ini"]
        (fun g => if g = "c.ini" then some ⟨[("GENERAL", [("flag", "True")])]⟩ else none)
      let r2 ← Easyfig.set [("GENERAL", [("flag", PyValue.bool true)])] ["c.ini"] r1.1 r1.2
        "flag" (PyValue.bool false) "GENERAL"
      Except.ok (r2.1, lookupA r2.2.1.attrs "flag"))
    = .ok (some "False", some (PyValue.bool true)) ∧
    ¬ ((do
      let r1 ← Easyfig.init [("GENERAL", [("flag", PyValue.bool true)])] ["c.ini"]
        (fun g => if g = "c.ini" then some ⟨[("GENERAL", [("flag", "True")])]⟩ else none)
      let r2 ← Easyfig.set [("GENERAL", [("flag", PyValue.bool true)])] ["c.ini"] r1.1 r1.2
        "flag" (PyValue.bool false) "GENERAL"
      Except.ok (r2.1, lookupA r2.2.1.attrs "flag"))
    = .ok (some "False", some (PyValue.bool false))) := by
  constructor
  · rfl
  · intro h
    have h2 : (do
        let r1 ← Easyfig.init [("GENERAL", [("flag", PyValue.bool true)])] ["c.ini"]
          (fun g => if g = "c.ini" then some ⟨[("GENERAL", [("flag", "True")])]⟩ else none)
        let r2 ← Easyfig.set [("GENERAL", [("flag", PyValue.bool true)])] ["c.ini"] r1.1 r1.2
          "flag" (PyValue.bool false) "GENERAL"
        Except.ok (r2.1, lookupA r2.2.1.attrs "flag"))
      = Except.ok (some "False", some (PyValue.bool true)) := rfl
    rw [h2] at h
    simp at h

/-- C7 (amended): for any non-protected option already present in the read
parser's section (scalar-typed default, scalar value), `Set(option, v)`
returns the serialized string `str(v)`, and afterwards — including after
reconstructing the store from the same file set — the bound attribute equals
the cast of that *serialized string* to the schema default's type (keeping
the previous value in memory, and binding nothing on reconstruction, when
that cast fails).  For int-typed options this cast returns `v` itself
(`int(str(v)) = v`), but not in general: `bool(str(v))` is `True` for every
`v`, as the counterexample shows. -/
theorem c7_amended_cast_of_serialized (f x : String) (dv : PyValue) (d0 : Disk)
    (P : ParserState) (s0 : String) (value : PyValue) (st1 : EState) (d1 : Disk)
    (hx : pyStartswith x "_" = false)
    (hdv : isComposite dv = false)
    (hval : isComposite value = false)
    (hwfP : wfP P)
    (hd : d0 f = some P)
    (hv : P.get "GENERAL" x = some s0)
    (h1 : Easyfig.init [("GENERAL", [(x, dv)])] [f] d0 = .ok (st1, d1)) :
    ∃ st2 d2, Easyfig.set [("GENERAL", [(x, dv)])] [f] st1 d1 x value "GENERAL"
        = .ok (some (pyStr value), st2, d2) ∧
      lookupA st2.attrs x = (match scalarCast dv (pyStr value) with
        | some w => some w
        | none => lookupA st1.attrs x) ∧
      ∃ st3 d3, Easyfig.init [("GENERAL", [(x, dv)])] [f] d2 = .ok (st3, d3) ∧
        lookupA st3.attrs x = (match scalarCast dv (pyStr value) with
          | some w => some w
          | none => none) := by
  have hreadP : readAll [f] d0 = P := by
    show readFileInto ParserState.empty d0 f = P
    unfold readFileInto
    rw [hd]
    exact readInto_empty P hwfP
  have hres0 : (readAll [f] d0).get "GENERAL" x = some s0 := by
    rw [hreadP]
    exact hv
  have hload0 := load_single_scalar x dv [f] f d0 s0 [] rfl hx hdv hres0
  rw [show Easyfig.init [("GENERAL", [(x, dv)])] [f] d0
      = Easyfig.load [("GENERAL", [(x, dv)])] [f] [] d0 from rfl,
    hload0] at h1
  simp only [Except.ok.injEq, Prod.mk.injEq] at h1
  obtain ⟨hst1, hd1⟩ := h1
  have hsp0P : readFileInto ParserState.empty d0 f = P := hreadP
  have hst1parser : st1.parser = P := by rw [← hst1, hreadP]
  have hst1save : st1.saveParser = P := by rw [← hst1]; exact hsp0P
  have hsecP : P.hasSection "GENERAL" = true := hasSection_of_get_some P _ _ _ hv
  obtain ⟨es, hes, hesx⟩ : ∃ es, lookupA P.sections "GENERAL" = some es ∧
      lookupA es x = some s0 := by
    unfold ParserState.get at hv
    cases hl : lookupA P.sections "GENERAL" with
    | none => rw [hl] at hv; simp at hv
    | some es => rw [hl] at hv; exact ⟨es, rfl, hv⟩
  unfold Easyfig.set
  rw [hst1parser]
  simp only [hsecP, if_true, Bind.bind, Except.bind]
  rw [hst1parser, hst1save]
  have hguard : (P.hasSection "GENERAL"
      && (keysA ((lookupA P.sections "GENERAL").getD [])).contains x
      && !(pyStartswith x "_")) = true := by
    rw [hsecP, hes, hx]
    simp only [Option.getD_some]
    rw [contains_keysA_of_lookup es x s0 hesx]
    rfl
  rw [hguard]
  simp only [if_true]
  rw [setInternal_spec]
  have hserval : serialDefault value = .ok (pyStr value) := by
    cases value <;> simp [isComposite] at hval <;> rfl
  rw [hserval]
  dsimp only
  rw [if_pos hsecP]
  have hwfsp' : wfP (P.set "GENERAL" x (pyStr value)) := wfP_set _ _ _ _ hwfP
  have hsave : Easyfig.save [f]
      ⟨P, P.set "GENERAL" x (pyStr value), st1.attrs⟩ d1
      = .ok (diskSet d1 f (P.set "GENERAL" x (pyStr value))) := rfl
  rw [hsave]
  dsimp only
  have hd1'f : diskSet d1 f (P.set "GENERAL" x (pyStr value)) f
      = some (P.set "GENERAL" x (pyStr value)) := diskSet_self _ _ _
  have hread' : readAll [f] (diskSet d1 f (P.set "GENERAL" x (pyStr value)))
      = P.set "GENERAL" x (pyStr value) := by
    show readFileInto ParserState.empty _ f = _
    unfold readFileInto
    rw [hd1'f]
    exact readInto_empty _ hwfsp'
  have hres2 : (readAll [f] (diskSet d1 f (P.set "GENERAL" x (pyStr value)))).get
      "GENERAL" x = some (pyStr value) := by
    rw [hread']
    exact get_set_self P "GENERAL" x _ hsecP
  have hload2 := load_single_scalar x dv [f]
    f (diskSet d1 f (P.set "GENERAL" x (pyStr value))) (pyStr value)
    st1.attrs rfl hx hdv hres2
  rw [hload2]
  dsimp only
  refine ⟨_, _, rfl, ?_, ?_⟩
  · cases hsc : scalarCast dv (pyStr value) with
    | some w => simp [hsc, lookupA_setA_self]
    | none => simp [hsc]
  · set dd := diskSet d1 f (P.set "GENERAL" x (pyStr value)) with hdd
    have hspagain : readFileInto ParserState.empty dd f
        = P.set "GENERAL" x (pyStr value) := by
      unfold readFileInto
      rw [hd1'f]
      exact readInto_empty _ hwfsp'
    have hread3 : readAll [f] (diskSet dd f (readFileInto ParserState.empty dd f))
        = P.set "GENERAL" x (pyStr value) := by
      show readFileInto ParserState.empty
        (diskSet dd f (readFileInto ParserState.empty dd f)) f = _
      rw [hspagain]
      unfold readFileInto
      rw [diskSet_self]
      exact readInto_empty _ hwfsp'
    have hres3 : (readAll [f] (diskSet dd f (readFileInto ParserState.empty dd f))).get
        "GENERAL" x = some (pyStr value) := by
      rw [hread3]
      exact get_set_self P "GENERAL" x _ hsecP
    have hload3 := load_single_scalar x dv [f] f
      (diskSet dd f (readFileInto ParserState.empty dd f)) (pyStr value) []
      rfl hx hdv hres3
    refine ⟨_, _, hload3, ?_⟩
    cases hsc : scalarCast dv (pyStr value) with
    | some w => simp [hsc, lookupA_setA_self]
    | none => simp [hsc, lookupA]

/-- Witness for the amended C7 at the bool instance: `Set("flag", False)`
returns "False" and the attribute afterwards is the cast of "False" through
`bool`, namely `True`, also after reconstruction. -/
theorem c7_amended_cast_of_serialized_witness :
    pyStartswith "flag" "_" = false ∧
    isComposite (PyValue.bool true) = false ∧
    isComposite (PyValue.bool false) = false ∧
    wfP (⟨[("GENERAL", [("flag", "True")])]⟩ : ParserState) ∧
    ∃ st2 d2, Easyfig.set [("GENERAL", [("flag", PyValue.bool true)])] ["c.ini"]
        ⟨⟨[("GENERAL", [("flag", "True")])]⟩, ⟨[("GENERAL", [("flag", "True")])]⟩,
          [("flag", PyValue.bool true)]⟩
        (diskSet (fun g => if g = "c.ini" then some ⟨[("GENERAL", [("flag", "True")])]⟩ else none)
          "c.ini" ⟨[("GENERAL", [("flag", "True")])]⟩)
        "flag" (PyValue.bool false) "GENERAL"
        = .ok (some (pyStr (PyValue.bool false)), st2, d2) ∧
      lookupA st2.attrs "flag"
        = (match scalarCast (PyValue.bool true) (pyStr (PyValue.bool false)) with
          | some w => some w
          | none => lookupA [("flag", PyValue.bool true)] "flag") ∧
      ∃ st3 d3, Easyfig.init [("GENERAL", [("flag", PyValue.bool true)])] ["c.ini"] d2
          = .ok (st3, d3) ∧
        lookupA st3.attrs "flag"
          = (match scalarCast (PyValue.bool true) (pyStr (PyValue.bool false)) with
            | some w => some w
            | none => none) := by
  refine ⟨rfl, rfl, rfl, by decide, ?_⟩
  exact c7_amended_cast_of_serialized "c.ini" "flag" (PyValue.bool true)
    (fun g => if g = "c.ini" then some ⟨[("GENERAL", [("flag", "True")])]⟩ else none)
    ⟨[("GENERAL", [("flag", "True")])]⟩ "True" (PyValue.bool false)
    ⟨⟨[("GENERAL", [("flag", "True")])]⟩, ⟨[("GENERAL", [("flag", "True")])]⟩,
      [("flag", PyValue.bool true)]⟩
    (diskSet (fun g => if g = "c.ini" then some ⟨[("GENERAL", [("flag", "True")])]⟩ else none)
      "c.ini" ⟨[("GENERAL", [("flag", "True")])]⟩)
    rfl rfl rfl (by decide) rfl rfl rfl
